import Mathlib

/-!
# go-zond state-transition and execution engine: a shallow embedding

This file embeds, in Lean 4, the state-transition core of the go-zond
repository:

* `ZVM.Call`, `ZVM.DelegateCall`, `ZVM.StaticCall`, `ZVM.create` and
  `ZVM.Create` from `core/vm/evm.go`;
* `StateProcessor.Process` / `applyTransaction` from
  `core/state_processor.go`;
* `Prestate.Apply` from `cmd/qrvm/internal/t8ntool/execution.go`;
* the typed-transaction envelope `encodeTyped` / `decodeTyped` /
  `MarshalBinary` / `UnmarshalBinary` from `core/types/transaction.go`,
  together with the vestigial `LegacyTx` from `core/types/tx_legacy.go`.

Components of the repository that the sources only reference (the journaled
`StateDB`, the bytecode interpreter, `core.ApplyMessage`, the `GasPool`,
the `params` constants and the `DynamicFeeTx` codec) are modelled from the
specification; each such definition carries a doc comment starting with
`Modelled from the spec:`.

Conventions: machine integers (`uint64`) become `Nat` with explicit
overflow guards where the source checks for overflow; byte strings become
`List Nat`; Go's `(value, error)` returns become records with an
`Option`-typed error component; a Go `panic` in an encoding routine is
modelled by an `Option`-valued result (`none` = panic).
-/

/-- Addresses, modelled as natural numbers (20-byte strings in Go). -/
abbrev Address := Nat

/-- Byte strings, modelled as lists of naturals. -/
abbrev Bytes := List Nat

/-- An account record, per spec section 3: nonce, balance, code and the
contract storage mapping (realized here as an association list). -/
structure Account where
  nonce : Nat
  balance : Nat
  code : Bytes
  storage : List (Nat × Nat)
deriving DecidableEq, Repr

/-- The empty (freshly created) account. -/
def Account.empty : Account := ⟨0, 0, [], []⟩

/-- The world state: a mapping from address to account record, realized
as an association list (spec section 3, World State). -/
structure World where
  accounts : List (Address × Account)
deriving DecidableEq, Repr

namespace World

/-- Look an address up in an account association list. -/
def findA : List (Address × Account) → Address → Option Account
  | [], _ => none
  | (k, v) :: t, a => if k = a then some v else findA t a

/-- Replace the first binding of an address, or append a new binding. -/
def setA : List (Address × Account) → Address → Account → List (Address × Account)
  | [], a, acct => [(a, acct)]
  | (k, v) :: t, a, acct => if k = a then (k, acct) :: t else (k, v) :: setA t a acct

/-- `GetAccount`: look up an account; `none` means the account is absent. -/
def find (w : World) (a : Address) : Option Account := findA w.accounts a

/-- Store an account record under an address. -/
def set (w : World) (a : Address) (acct : Account) : World := ⟨setA w.accounts a acct⟩

/-- `StateDB.Exist`. -/
def exist (w : World) (a : Address) : Bool := (w.find a).isSome

/-- The account at an address, an empty record when absent. -/
def getAcct (w : World) (a : Address) : Account := (w.find a).getD Account.empty

/-- `StateDB.GetNonce`: 0 for an absent account. -/
def getNonce (w : World) (a : Address) : Nat := (w.getAcct a).nonce

/-- `StateDB.GetBalance`: 0 for an absent account. -/
def getBalance (w : World) (a : Address) : Nat := (w.getAcct a).balance

/-- `StateDB.GetCode`: empty for an absent account. -/
def getCode (w : World) (a : Address) : Bytes := (w.getAcct a).code

/-- Modelled from the spec: `StateDB.SetNonce` creates the account object
when absent (the journaled state database is not under src/). -/
def setNonce (w : World) (a : Address) (n : Nat) : World :=
  w.set a { w.getAcct a with nonce := n }

/-- Modelled from the spec: `StateDB.SetCode`, creating when absent. -/
def setCode (w : World) (a : Address) (c : Bytes) : World :=
  w.set a { w.getAcct a with code := c }

/-- Modelled from the spec: `StateDB.AddBalance`; a zero-amount add is an
early return (a pure "touch"), mirroring the guard in the missing state
database and keeping empty accounts logically absent (spec section 3). -/
def addBalance (w : World) (a : Address) (v : Nat) : World :=
  if v = 0 then w else w.set a { w.getAcct a with balance := (w.getAcct a).balance + v }

/-- Modelled from the spec: `StateDB.SubBalance`, with the same zero-amount
early return. Callers guard against underflow via `canTransfer`. -/
def subBalance (w : World) (a : Address) (v : Nat) : World :=
  if v = 0 then w else w.set a { w.getAcct a with balance := (w.getAcct a).balance - v }

/-- Modelled from the spec: `StateDB.CreateAccount` installs a fresh
account, carrying over any pre-existing balance. -/
def createAccount (w : World) (a : Address) : World :=
  w.set a { Account.empty with balance := w.getBalance a }

/-- `core.CanTransfer` — modelled from the spec: the account holds
sufficient balance for the transfer (the file defining it is not under
src/). -/
def canTransfer (w : World) (a : Address) (v : Nat) : Bool :=
  v ≤ w.getBalance a

/-- `core.Transfer` — modelled from the spec: subtract from the sender,
add to the recipient. -/
def transfer (w : World) (sender recipient : Address) (v : Nat) : World :=
  (w.subBalance sender v).addBalance recipient v

end World

/-- A content hash of contract code: the zero hash (absent account), or
the hash of a code byte string. `hashOf []` plays the role of the
well-known empty-code hash constant (spec section 3); constructor
injectivity models collision freeness of the hash. -/
inductive CodeHash where
  | zero : CodeHash
  | hashOf : Bytes → CodeHash
deriving DecidableEq, Repr

/-- `StateDB.GetCodeHash`: zero for an absent account, the hash of the
stored code otherwise. -/
def World.getCodeHash (w : World) (a : Address) : CodeHash :=
  match w.find a with
  | none => .zero
  | some acct => .hashOf acct.code

/-- The journaled state visible to execution: the world state plus the
per-transaction access list and accumulated logs (all three are journaled
and revert together, spec section 4.2). -/
structure SDBState where
  world : World
  accessList : List Address
  logs : List Bytes
deriving DecidableEq, Repr

/-- Modelled from the spec: the snapshotting state database (section 4.2,
`OpenCheckpoint` / `RevertTo`). `cur` is the live state, `snaps` the stack
of open checkpoints; the implementation file `core/state/statedb.go` is
not under src/. -/
structure SDB where
  cur : SDBState
  snaps : List SDBState
deriving DecidableEq, Repr

namespace SDB

/-- `StateDB.Snapshot`: push the current state onto the checkpoint stack
and return its identifier. -/
def snapshot (s : SDB) : Nat × SDB :=
  (s.snaps.length, { s with snaps := s.snaps ++ [s.cur] })

/-- `StateDB.RevertToSnapshot`: restore the checkpoint with the given
identifier and drop every later checkpoint. An invalid identifier panics
in Go and is unreachable in the code paths embedded here. -/
def revertToSnapshot (s : SDB) (id : Nat) : SDB :=
  match s.snaps[id]? with
  | some st => { cur := st, snaps := s.snaps.take id }
  | none => s

def exist (s : SDB) (a : Address) : Bool := s.cur.world.exist a

def getNonce (s : SDB) (a : Address) : Nat := s.cur.world.getNonce a

def getBalance (s : SDB) (a : Address) : Nat := s.cur.world.getBalance a

def getCode (s : SDB) (a : Address) : Bytes := s.cur.world.getCode a

def getCodeHash (s : SDB) (a : Address) : CodeHash := s.cur.world.getCodeHash a

def setNonce (s : SDB) (a : Address) (n : Nat) : SDB :=
  { s with cur := { s.cur with world := s.cur.world.setNonce a n } }

def setCode (s : SDB) (a : Address) (c : Bytes) : SDB :=
  { s with cur := { s.cur with world := s.cur.world.setCode a c } }

def addBalance (s : SDB) (a : Address) (v : Nat) : SDB :=
  { s with cur := { s.cur with world := s.cur.world.addBalance a v } }

def subBalance (s : SDB) (a : Address) (v : Nat) : SDB :=
  { s with cur := { s.cur with world := s.cur.world.subBalance a v } }

def createAccount (s : SDB) (a : Address) : SDB :=
  { s with cur := { s.cur with world := s.cur.world.createAccount a } }

def transfer (s : SDB) (sender recipient : Address) (v : Nat) : SDB :=
  { s with cur := { s.cur with world := s.cur.world.transfer sender recipient v } }

def canTransfer (s : SDB) (a : Address) (v : Nat) : Bool := s.cur.world.canTransfer a v

/-- `StateDB.AddAddressToAccessList`. -/
def addAddressToAccessList (s : SDB) (a : Address) : SDB :=
  { s with cur := { s.cur with accessList :=
      if a ∈ s.cur.accessList then s.cur.accessList else a :: s.cur.accessList } }

end SDB

/-- The virtual-machine error values of `core/vm/errors.go` that the
embedded code paths mention, plus `other` for interpreter-generated
errors. A `none` error in a result corresponds to Go's `nil`. -/
inductive VMErr where
  | errDepth : VMErr
  | errInsufficientBalance : VMErr
  | errNonceUintOverflow : VMErr
  | errContractAddressCollision : VMErr
  | errMaxCodeSizeExceeded : VMErr
  | errInvalidCode : VMErr
  | errCodeStoreOutOfGas : VMErr
  | errExecutionReverted : VMErr
  | errOutOfGas : VMErr
  | other : Nat → VMErr
deriving DecidableEq, Repr

/-- Modelled from the spec: `params.CallCreateDepth`, the fixed maximum
call nesting (section 4.4); the `params` package file is not under src/. -/
def CallCreateDepth : Nat := 1024

/-- Modelled from the spec: `params.MaxCodeSize`, the maximum deployed
contract code size (section 8 scenario 9). -/
def MaxCodeSize : Nat := 24576

/-- Modelled from the spec: `params.CreateDataGas`, the per-byte gas cost
of storing created contract code (gas accounting, section 4.3). -/
def CreateDataGas : Nat := 200

/-- `uint64` width; nonces are 64-bit in Go and `ZVM.create` guards
against wrap-around explicitly. -/
def U64Mod : Nat := 2 ^ 64

/-- The scoped execution environment handed to the interpreter
(`core/vm/contract.go`, not under src/; the fields are those the call
sites in `evm.go` populate via `NewContract` / `SetCallCode`). -/
structure Contract where
  caller : Address
  self : Address
  value : Nat
  gas : Nat
  code : Bytes
deriving DecidableEq, Repr

/-- The result quadruple of running code in a frame: the state database
after the run, the returned bytes (`none` = Go `nil`), the remaining gas
(`contract.Gas` after the run), and the error (`none` = Go `nil`). -/
structure CallResult where
  sdb : SDB
  ret : Option Bytes
  gasLeft : Nat
  err : Option VMErr
deriving DecidableEq, Repr

/-- Modelled from the spec: the deterministic bytecode interpreter
(`ZVMInterpreter.Run`, section 4.4) is not under src/; the embedding
treats it as a parameter: a function of the state database, the contract
frame, the input and the read-only flag. -/
abbrev Interp := SDB → Contract → Bytes → Bool → CallResult

/-- A precompiled contract: its gas-cost function and its computation
(spec section 4.4, "a fixed table of address to gas cost function and
computation pairs"). -/
structure Precompile where
  requiredGas : Bytes → Nat
  run : Bytes → Option Bytes × Option VMErr

/-- Modelled from the spec: `RunPrecompiledContract` of
`core/vm/contracts.go` (not under src/): charge the required gas up
front, failing with out-of-gas when the supplied gas does not cover it,
then run the native computation. -/
def runPrecompiledContract (p : Precompile) (input : Bytes) (gas : Nat) :
    Option Bytes × Nat × Option VMErr :=
  let gasCost := p.requiredGas input
  if gas < gasCost then (none, 0, some .errOutOfGas)
  else
    let out := p.run input
    (out.1, gas - gasCost, out.2)

/-- The ZVM context for one call tree: the current call depth, the
precompile table (`PrecompiledContractsBerlin`, a fixed table whose
defining file is not under src/, carried here as a field), and the
interpreter. Tracer hooks (`Config.Tracer`) are observation-only and are
omitted. -/
structure ZVM where
  depth : Nat
  precompiles : List (Address × Precompile)
  interp : Interp

namespace ZVM

/-- `ZVM.precompile`: look the address up in the precompile table. -/
def precompile (zvm : ZVM) (addr : Address) : Option Precompile :=
  match zvm.precompiles.find? (fun p => p.1 = addr) with
  | some p => some p.2
  | none => none

/-- `ZVM.Call` from `core/vm/evm.go`: executes the contract associated
with `addr`, handling value transfer, account creation and revert on
error, mirroring the Go source line by line (tracer hooks omitted). -/
def Call (zvm : ZVM) (sdb : SDB) (caller addr : Address) (input : Bytes)
    (gas : Nat) (value : Nat) : CallResult :=
  -- Fail if we're trying to execute above the call depth limit
  if zvm.depth > CallCreateDepth then ⟨sdb, none, gas, some .errDepth⟩
  -- Fail if we're trying to transfer more than the available balance
  else if value ≠ 0 ∧ ¬ sdb.canTransfer caller value then
    ⟨sdb, none, gas, some .errInsufficientBalance⟩
  else
    let snap := sdb.snapshot
    let snapId := snap.1
    let sdb := snap.2
    let p? := zvm.precompile addr
    if ¬ sdb.exist addr ∧ p?.isNone ∧ value = 0 then
      -- Calling a non existing account, don't do anything
      ⟨sdb, none, gas, none⟩
    else
      let sdb := if ¬ sdb.exist addr then sdb.createAccount addr else sdb
      let sdb := sdb.transfer caller addr value
      let r : CallResult :=
        match p? with
        | some p =>
          let o := runPrecompiledContract p input gas
          ⟨sdb, o.1, o.2.1, o.2.2⟩
        | none =>
          let code := sdb.getCode addr
          if code = [] then ⟨sdb, none, gas, none⟩
          else
            let contract : Contract := ⟨caller, addr, value, gas, code⟩
            zvm.interp sdb contract input false
      -- When an error was returned by the ZVM we revert to the snapshot
      -- and consume any gas remaining.
      if r.err ≠ none then
        { r with sdb := r.sdb.revertToSnapshot snapId,
                 gasLeft := if r.err = some .errExecutionReverted then r.gasLeft else 0 }
      else r

/-- `ZVM.DelegateCall` from `core/vm/evm.go`: run the code of `addr` in
the caller's own context, reverting on error. -/
def DelegateCall (zvm : ZVM) (sdb : SDB) (caller addr : Address) (input : Bytes)
    (gas : Nat) : CallResult :=
  if zvm.depth > CallCreateDepth then ⟨sdb, none, gas, some .errDepth⟩
  else
    let snap := sdb.snapshot
    let snapId := snap.1
    let sdb := snap.2
    let r : CallResult :=
      match zvm.precompile addr with
      | some p =>
        let o := runPrecompiledContract p input gas
        ⟨sdb, o.1, o.2.1, o.2.2⟩
      | none =>
        let contract : Contract := ⟨caller, caller, 0, gas, sdb.getCode addr⟩
        zvm.interp sdb contract input false
    if r.err ≠ none then
      { r with sdb := r.sdb.revertToSnapshot snapId,
               gasLeft := if r.err = some .errExecutionReverted then r.gasLeft else 0 }
    else r

/-- `ZVM.StaticCall` from `core/vm/evm.go`: run the code of `addr` with
the interpreter's read-only flag set, after a zero-amount balance add
(a "touch") of the callee. -/
def StaticCall (zvm : ZVM) (sdb : SDB) (caller addr : Address) (input : Bytes)
    (gas : Nat) : CallResult :=
  if zvm.depth > CallCreateDepth then ⟨sdb, none, gas, some .errDepth⟩
  else
    let snap := sdb.snapshot
    let snapId := snap.1
    let sdb := snap.2
    -- We do an AddBalance of zero here, just in order to trigger a touch.
    let sdb := sdb.addBalance addr 0
    let r : CallResult :=
      match zvm.precompile addr with
      | some p =>
        let o := runPrecompiledContract p input gas
        ⟨sdb, o.1, o.2.1, o.2.2⟩
      | none =>
        let contract : Contract := ⟨caller, addr, 0, gas, sdb.getCode addr⟩
        zvm.interp sdb contract input true
    if r.err ≠ none then
      { r with sdb := r.sdb.revertToSnapshot snapId,
               gasLeft := if r.err = some .errExecutionReverted then r.gasLeft else 0 }
    else r

/-- The result of `ZVM.create`: state database, returned bytes, the
contract address, remaining gas, and error. -/
structure CreateResult where
  sdb : SDB
  ret : Option Bytes
  addr : Address
  gasLeft : Nat
  err : Option VMErr
deriving DecidableEq, Repr

/-- The post-init-code tail of `ZVM.create`: check the returned code
against the size and 0xEF rules, charge the code-storage gas, and revert
on error — except for `ErrCodeStoreOutOfGas`, for which the source keeps
the state changes. `o` is the interpreter's outcome for the init frame;
the returned triple is (state database, remaining gas, error). -/
def createEpilogue (snapId : Nat) (address : Address) (o : CallResult) :
    SDB × Nat × Option VMErr :=
  let retLen := (o.ret.getD []).length
  -- Check whether the max code size has been exceeded.
  let err := if o.err = none ∧ retLen > MaxCodeSize
    then some VMErr.errMaxCodeSizeExceeded else o.err
  -- Reject code starting with 0xEF (EIP-3541).
  let err := if err = none ∧ (o.ret.getD []).head? = some 0xEF
    then some VMErr.errInvalidCode else err
  -- Charge the gas required to store the code.
  let createDataGas := retLen * CreateDataGas
  let stored := err = none ∧ createDataGas ≤ o.gasLeft
  let gasLeft := if stored then o.gasLeft - createDataGas else o.gasLeft
  let sdb := if stored then o.sdb.setCode address (o.ret.getD []) else o.sdb
  let err := if err = none ∧ ¬ createDataGas ≤ o.gasLeft
    then some VMErr.errCodeStoreOutOfGas else err
  -- Revert on error, except for code-storage out-of-gas.
  if err ≠ none ∧ err ≠ some .errCodeStoreOutOfGas then
    (sdb.revertToSnapshot snapId,
     if err = some .errExecutionReverted then gasLeft else 0, err)
  else (sdb, gasLeft, err)

/-- The state on which a creation's init frame runs: caller nonce bumped,
the new address access-listed, the entry snapshot pushed, the new account
created with nonce 1, and the endowment transferred
(the pre-run sequence of `ZVM.create`). -/
def createRunState (sdb : SDB) (caller : Address) (value : Nat) (address : Address) : SDB :=
  let s1 := (sdb.setNonce caller (sdb.getNonce caller + 1)).addAddressToAccessList address
  ((s1.snapshot.2.createAccount address).setNonce address 1).transfer caller address value

/-- `ZVM.create` from `core/vm/evm.go`: deploy a contract whose init code
is `code` at `address`. The caller's nonce is incremented and the address
added to the access list before the snapshot is taken; the init frame
then runs and `createEpilogue` applies the code checks and the revert
policy. -/
def create (zvm : ZVM) (sdb0 : SDB) (caller : Address) (code : Bytes)
    (gas : Nat) (value : Nat) (address : Address) : CreateResult :=
  let sdb := sdb0
  -- Depth check execution.
  if zvm.depth > CallCreateDepth then ⟨sdb, none, 0, gas, some .errDepth⟩
  else if ¬ sdb.canTransfer caller value then
    ⟨sdb, none, 0, gas, some .errInsufficientBalance⟩
  else
    let nonce := sdb.getNonce caller
    -- Go detects uint64 wrap-around via `nonce+1 < nonce`.
    if nonce + 1 ≥ U64Mod then ⟨sdb, none, 0, gas, some .errNonceUintOverflow⟩
    else
      let sdb := sdb.setNonce caller (nonce + 1)
      -- We add this to the access list _before_ taking a snapshot.
      let sdb := sdb.addAddressToAccessList address
      -- Ensure there's no existing contract already at the designated address
      let contractHash := sdb.getCodeHash address
      if sdb.getNonce address ≠ 0 ∨
          (contractHash ≠ .zero ∧ contractHash ≠ .hashOf []) then
        ⟨sdb, none, 0, 0, some .errContractAddressCollision⟩
      else
        -- Create a new account on the state, set its nonce to 1 and
        -- transfer the endowment; the init frame then runs on that state
        let snapId := sdb.snapshot.1
        let contract : Contract := ⟨caller, address, value, gas, code⟩
        let o := zvm.interp (createRunState sdb0 caller value address) contract [] false
        let fin := createEpilogue snapId address o
        ⟨fin.1, o.ret, address, fin.2.1, fin.2.2⟩

/-- `crypto.CreateAddress` — modelled from the spec: the deterministic
contract-address derivation from creator address and nonce (the keccak
derivation is not under src/); `Nat.pair` keeps it injective. -/
def createAddress (caller : Address) (nonce : Nat) : Address :=
  Nat.pair caller nonce + 1

/-- `ZVM.Create` from `core/vm/evm.go`: derive the contract address from
the caller's current nonce and run `create`. -/
def Create (zvm : ZVM) (sdb : SDB) (caller : Address) (code : Bytes)
    (gas : Nat) (value : Nat) : CreateResult :=
  zvm.create sdb caller code gas value (createAddress caller (sdb.getNonce caller))

end ZVM

/-- A transaction message, the output of `TransactionToMessage`: sender,
recipient (`none` = contract creation), nonce, gas limit, effective gas
price, value and payload (spec section 3, Transaction). -/
structure Msg where
  sender : Address
  recipient : Option Address
  nonce : Nat
  gasLimit : Nat
  gasPrice : Nat
  value : Nat
  data : Bytes
deriving DecidableEq, Repr

/-- Pre-execution validation errors of the state transition (spec
section 4.5, steps (a)-(d); these reject a transaction from the block
without executing it). -/
inductive TxErr where
  | nonceMismatch : TxErr
  | insufficientFunds : TxErr
  | gasLimitReached : TxErr
  | intrinsicGasTooHigh : TxErr
deriving DecidableEq, Repr

/-- Modelled from the spec: `core.IntrinsicGas` (glossary, "Intrinsic
gas"): a fixed base overhead — larger for contract creation — plus a
per-byte payload cost. -/
def intrinsicGas (data : Bytes) (isCreate : Bool) : Nat :=
  (if isCreate then 53000 else 21000) + 16 * data.length

/-- Per-transaction execution result (`core.ExecutionResult`): gas used,
the virtual-machine error if the execution reverted, and the return
data. -/
structure ExecResult where
  usedGas : Nat
  vmerr : Option VMErr
  ret : Option Bytes
deriving DecidableEq, Repr

/-- `ExecutionResult.Failed`: the execution ended with a VM error. -/
def ExecResult.failed (r : ExecResult) : Bool := r.vmerr.isSome

deriving instance DecidableEq for Except

/-- The outcome of `ApplyMessage`: the (possibly partially mutated) state
database, the remaining block gas pool, and either a validation error or
the execution result. On a validation error the caller reverts the state
database to its own snapshot and restores the gas pool, mirroring
`Prestate.Apply`. -/
structure ApplyOut where
  sdb : SDB
  gp : Nat
  result : Except TxErr ExecResult
deriving DecidableEq, Repr

/-- Modelled from the spec: `core.ApplyMessage` (section 4.5 algorithm):
(b) the nonce must match the account's exactly, (c) the sender balance
must cover gas limit times fee cap plus value, the block gas pool must
cover the gas limit (section 4.3), the gas fee is bought up front, (d)
intrinsic gas is deducted before execution, (e) execution runs through
the ZVM (`Call` for a message call — the sender's nonce is incremented
first — or `Create` for a creation, which increments it itself), and
leftover gas is refunded to the sender and returned to the block pool.
The gas pool is a `Nat` with a guarded subtraction, mirroring the uint64
underflow guard in `GasPool.SubGas`. -/
def ApplyMessage (zvm : ZVM) (msg : Msg) (gp : Nat) (sdb : SDB) : ApplyOut :=
  let stNonce := sdb.getNonce msg.sender
  if msg.nonce ≠ stNonce then ⟨sdb, gp, .error .nonceMismatch⟩
  else
    let mgval := msg.gasLimit * msg.gasPrice
    if sdb.getBalance msg.sender < mgval + msg.value then
      ⟨sdb, gp, .error .insufficientFunds⟩
    else if gp < msg.gasLimit then ⟨sdb, gp, .error .gasLimitReached⟩
    else
      -- buyGas: deduct the whole fee and reserve the gas in the pool.
      let gp := gp - msg.gasLimit
      let sdb := sdb.subBalance msg.sender mgval
      let ig := intrinsicGas msg.data msg.recipient.isNone
      if msg.gasLimit < ig then ⟨sdb, gp, .error .intrinsicGasTooHigh⟩
      else
        let gasRemaining := msg.gasLimit - ig
        let r : CallResult :=
          match msg.recipient with
          | some toAddr =>
            let sdb := sdb.setNonce msg.sender (stNonce + 1)
            zvm.Call sdb msg.sender toAddr msg.data gasRemaining msg.value
          | none =>
            let c := zvm.Create sdb msg.sender msg.data gasRemaining msg.value
            ⟨c.sdb, c.ret, c.gasLeft, c.err⟩
        -- Refund leftover gas to the sender and return it to the pool.
        let sdb := r.sdb.addBalance msg.sender (r.gasLeft * msg.gasPrice)
        let gp := gp + r.gasLeft
        ⟨sdb, gp, .ok ⟨msg.gasLimit - r.gasLeft, r.err, r.ret⟩⟩

/-- A transaction receipt (spec section 3): status, gas used by this
transaction, cumulative gas used in the block so far, the logs emitted by
the transaction, and the created contract address for creations. -/
structure Receipt where
  status : Bool
  gasUsed : Nat
  cumulativeGasUsed : Nat
  logs : List Bytes
  contractAddress : Option Address
deriving DecidableEq, Repr

/-- Build the receipt for one applied transaction, as `applyTransaction`
in `core/state_processor.go` and the receipt block of `Prestate.Apply`
do: failed status from the execution result, per-transaction and
cumulative gas, the logs the transaction appended, and the derived
contract address for creations. -/
def mkReceipt (msg : Msg) (senderNonce : Nat) (res : ExecResult)
    (cumulative : Nat) (txLogs : List Bytes) : Receipt :=
  { status := ¬ res.failed
    gasUsed := res.usedGas
    cumulativeGasUsed := cumulative
    logs := txLogs
    contractAddress :=
      if msg.recipient = none then some (ZVM.createAddress msg.sender senderNonce) else none }

/-- The accumulator threaded through the transaction loop of
`Prestate.Apply`. -/
structure ApplyAcc where
  sdb : SDB
  gaspool : Nat
  gasUsed : Nat
  receipts : List Receipt
  rejected : List Nat
  txIndex : Nat
deriving DecidableEq, Repr

/-- One iteration of the transaction loop of `Prestate.Apply`
(`cmd/qrvm/internal/t8ntool/execution.go`): snapshot the state and
remember the pool, apply the message, and on a validation error revert
the snapshot, restore the pool and record the transaction as rejected;
otherwise accumulate the gas and build the receipt. -/
def applyStep (zvm : ZVM) (acc : ApplyAcc) (idx : Nat) (msg : Msg) : ApplyAcc :=
  let snap := acc.sdb.snapshot
  let snapId := snap.1
  let sdb := snap.2
  let prevGas := acc.gaspool
  let senderNonce := sdb.getNonce msg.sender
  let out := ApplyMessage zvm msg acc.gaspool sdb
  match out.result with
  | .error _ =>
    -- revert the snapshot and restore the pool to its pre-transaction value
    { acc with sdb := out.sdb.revertToSnapshot snapId, gaspool := prevGas,
               rejected := acc.rejected ++ [idx] }
  | .ok res =>
    let gasUsed := acc.gasUsed + res.usedGas
    let txLogs := out.sdb.cur.logs.drop sdb.cur.logs.length
    let receipt := mkReceipt msg senderNonce res gasUsed txLogs
    { sdb := out.sdb
      gaspool := out.gp
      gasUsed := gasUsed
      receipts := acc.receipts ++ [receipt]
      rejected := acc.rejected
      txIndex := acc.txIndex + 1 }

/-- The block environment of `Prestate.Apply` (`stEnv`): coinbase, block
gas limit, mining reward (`none` = rewards disabled) and withdrawals. -/
structure BlockEnv where
  coinbase : Address
  gasLimit : Nat
  miningReward : Option Nat
  withdrawals : List (Address × Nat)
deriving DecidableEq, Repr

/-- `params.GPlanck` (`params/denomination.go`): withdrawal amounts are in
gplanck and are converted to planck. -/
def GPlanck : Nat := 1000000000

/-- Modelled from the spec: the state root committed by the World State
Store is a pure deterministic function of the (address, account) pairs
(spec section 3); realized as the insertion-sorted account list. -/
def stateRoot (w : World) : List (Address × Account) :=
  w.accounts.foldr (fun p acc => acc.orderedInsert (fun x y => x.1 ≤ y.1) p) []

/-- The result record of `Prestate.Apply`. -/
structure ApplyResult where
  stateRoot : List (Address × Account)
  receipts : List Receipt
  rejected : List Nat
  gasUsed : Nat
  sdb : SDB
deriving DecidableEq, Repr

/-- `Prestate.Apply` from `cmd/qrvm/internal/t8ntool/execution.go`: seed
the block gas pool with the block gas limit, fold the transaction loop
over the messages, then credit the mining reward and the withdrawals and
commit the final state root. -/
def Apply (zvm : ZVM) (env : BlockEnv) (msgs : List Msg) (sdb : SDB) : ApplyResult :=
  let init : ApplyAcc := ⟨sdb, env.gasLimit, 0, [], [], 0⟩
  let acc := msgs.enum.foldl (fun (a : ApplyAcc) p => applyStep zvm a p.1 p.2) init
  let sdb := acc.sdb
  let sdb := match env.miningReward with
    | some reward => sdb.addBalance env.coinbase reward
    | none => sdb
  let sdb := env.withdrawals.foldl
    (fun s w => s.addBalance w.1 (w.2 * GPlanck)) sdb
  { stateRoot := stateRoot sdb.cur.world
    receipts := acc.receipts
    rejected := acc.rejected
    gasUsed := acc.gasUsed
    sdb := sdb }

/-- `StateProcessor.Process` from `core/state_processor.go`: apply each
transaction in block order against the block gas pool; any failing
transaction aborts the whole block with an error (spec section 7,
consensus-fatal); on success return the receipts, the accumulated logs,
and the total gas used. Consensus-engine finalization
(`engine.Finalize`) is an external collaborator and is omitted. -/
def Process (zvm : ZVM) (gasLimit : Nat) (msgs : List Msg) (sdb : SDB) :
    Except TxErr (List Receipt × List Bytes × Nat × SDB) :=
  let step := fun (st : SDB × Nat × Nat × List Receipt) (msg : Msg) =>
    let (sdb, gp, usedGas, receipts) := st
    let senderNonce := sdb.getNonce msg.sender
    let logsBefore := sdb.cur.logs.length
    let out := ApplyMessage zvm msg gp sdb
    match out.result with
    | .error e => Except.error e
    | .ok res =>
      let usedGas := usedGas + res.usedGas
      let txLogs := out.sdb.cur.logs.drop logsBefore
      let receipt := mkReceipt msg senderNonce res usedGas txLogs
      Except.ok (out.sdb, out.gp, usedGas, receipts ++ [receipt])
  match msgs.foldlM step (sdb, gasLimit, 0, ([] : List Receipt)) with
  | .error e => .error e
  | .ok (sdb, _, usedGas, receipts) =>
    .ok (receipts, (receipts.map Receipt.logs).flatten, usedGas, sdb)

/-- `DynamicFeeTxType` from `core/types/transaction.go`: the only
transaction type discriminator the codec supports. -/
def DynamicFeeTxType : Nat := 0x02

/-- `LegacyTxType`: the type tag returned by `LegacyTx.txType` (its
defining constant is not under src/; legacy transactions are type 0). -/
def LegacyTxType : Nat := 0x00

/-- `DynamicFeeTx` (`core/types/tx_dynamic_fee.go`, not under src/): the
consensus fields per spec section 3 — nonce, gas limit, fee cap and tip,
recipient (`none` = creation), value, input data, access list, and
signature / public-key material. -/
structure DynamicFeeTx where
  chainID : Nat
  nonce : Nat
  gasTipCap : Nat
  gasFeeCap : Nat
  gas : Nat
  recipient : Option Address
  value : Nat
  data : Bytes
  accessList : List (Address × List Nat)
  signature : Bytes
  publicKey : Bytes
deriving DecidableEq, Repr

/-- `LegacyTx` from `core/types/tx_legacy.go` (consensus fields only). -/
structure LegacyTx where
  nonce : Nat
  gasPrice : Nat
  gas : Nat
  recipient : Option Address
  value : Nat
  data : Bytes
deriving DecidableEq, Repr

/-- `TxData` (`core/types/transaction.go`): the tagged union of
transaction payloads. The doc comment in the source says "This is
implemented by DynamicFeeTx", but `LegacyTx` also implements it and is
constructible via `NewTransaction`. -/
inductive TxData where
  | dynamicFee : DynamicFeeTx → TxData
  | legacy : LegacyTx → TxData
deriving DecidableEq, Repr

/-- `txType`: the type discriminator byte of a payload. -/
def TxData.txType : TxData → Nat
  | .dynamicFee _ => DynamicFeeTxType
  | .legacy _ => LegacyTxType

namespace TxCodec

/-- Serialize one unbounded integer field. -/
def encNat (n : Nat) : Bytes := [n]

/-- Serialize a byte string: length prefix, then the bytes. -/
def encBytes (b : Bytes) : Bytes := b.length :: b

/-- Serialize an optional address (`nil` recipient = creation). -/
def encOptAddr : Option Address → Bytes
  | none => [0]
  | some a => [1, a]

/-- Serialize one access-list tuple (address, storage keys). -/
def encTuple (t : Address × List Nat) : Bytes := t.1 :: encBytes t.2

/-- Serialize an access list: count prefix, then the tuples. -/
def encAccessList (l : List (Address × List Nat)) : Bytes :=
  l.length :: (l.map encTuple).flatten

/-- Parse one integer field. -/
def parseNat : Bytes → Option (Nat × Bytes)
  | n :: r => some (n, r)
  | [] => none

/-- Parse a length-prefixed byte string. -/
def parseBytes : Bytes → Option (Bytes × Bytes)
  | n :: r => if n ≤ r.length then some (r.take n, r.drop n) else none
  | [] => none

/-- Parse an optional address. -/
def parseOptAddr : Bytes → Option (Option Address × Bytes)
  | 0 :: r => some (none, r)
  | 1 :: a :: r => some (some a, r)
  | _ => none

/-- Parse one access-list tuple. -/
def parseTuple : Bytes → Option ((Address × List Nat) × Bytes)
  | a :: r =>
    match parseBytes r with
    | some (ks, r) => some ((a, ks), r)
    | none => none
  | [] => none

/-- Parse `n` access-list tuples. -/
def parseTuples : Nat → Bytes → Option (List (Address × List Nat) × Bytes)
  | 0, r => some ([], r)
  | n + 1, r =>
    match parseTuple r with
    | some (t, r) =>
      match parseTuples n r with
      | some (ts, r) => some (t :: ts, r)
      | none => none
    | none => none

/-- Parse an access list. -/
def parseAccessList (b : Bytes) : Option (List (Address × List Nat) × Bytes) :=
  match parseNat b with
  | some (n, r) => parseTuples n r
  | none => none

end TxCodec

open TxCodec in
/-- Modelled from the spec: `DynamicFeeTx.encode` — the canonical
deterministic serialization of the transaction's consensus fields (spec
section 6, "Exposed persisted state layout"); the byte-level RLP layout
is not under src/, so a simple self-delimiting field concatenation stands
in for it. -/
def DynamicFeeTx.encode (tx : DynamicFeeTx) : Bytes :=
  encNat tx.chainID ++ encNat tx.nonce ++ encNat tx.gasTipCap ++
  encNat tx.gasFeeCap ++ encNat tx.gas ++ encOptAddr tx.recipient ++
  encNat tx.value ++ encBytes tx.data ++ encAccessList tx.accessList ++
  encBytes tx.signature ++ encBytes tx.publicKey

open TxCodec in
/-- Modelled from the spec: `DynamicFeeTx.decode`, the inverse parser of
`DynamicFeeTx.encode`; `none` is a decoding error. -/
def DynamicFeeTx.decode (b : Bytes) : Option DynamicFeeTx :=
  match parseNat b with
  | none => none
  | some (chainID, b) =>
  match parseNat b with
  | none => none
  | some (nonce, b) =>
  match parseNat b with
  | none => none
  | some (gasTipCap, b) =>
  match parseNat b with
  | none => none
  | some (gasFeeCap, b) =>
  match parseNat b with
  | none => none
  | some (gas, b) =>
  match parseOptAddr b with
  | none => none
  | some (recipient, b) =>
  match parseNat b with
  | none => none
  | some (value, b) =>
  match parseBytes b with
  | none => none
  | some (data, b) =>
  match parseAccessList b with
  | none => none
  | some (accessList, b) =>
  match parseBytes b with
  | none => none
  | some (signature, b) =>
  match parseBytes b with
  | none => none
  | some (publicKey, _) =>
    some ⟨chainID, nonce, gasTipCap, gasFeeCap, gas, recipient, value, data,
          accessList, signature, publicKey⟩

/-- `TxData.encode` dispatch: a dynamic-fee payload serializes its
fields; `LegacyTx.encode` panics in the source
(`core/types/tx_legacy.go`), modelled as `none`. -/
def TxData.encode : TxData → Option Bytes
  | .dynamicFee tx => some tx.encode
  | .legacy _ => none

/-- The errors of the typed-transaction codec
(`core/types/transaction.go`): `errShortTypedTx`,
`ErrTxTypeNotSupported`, and a payload decoding error. -/
inductive TxCodecErr where
  | errShortTypedTx : TxCodecErr
  | errTxTypeNotSupported : TxCodecErr
  | errPayloadDecode : TxCodecErr
deriving DecidableEq, Repr

/-- `Transaction.encodeTyped` / `Transaction.MarshalBinary` from
`core/types/transaction.go`: write the type discriminator byte, then the
payload encoding. `none` models the panic raised by `LegacyTx.encode`. -/
def marshalBinary (tx : TxData) : Option Bytes :=
  match tx.encode with
  | some payload => some (tx.txType :: payload)
  | none => none

/-- `Transaction.decodeTyped` from `core/types/transaction.go`: inputs of
length at most one are `errShortTypedTx`; otherwise dispatch on the first
byte — only `DynamicFeeTxType` is supported. -/
def decodeTyped (b : Bytes) : Except TxCodecErr TxData :=
  if b.length ≤ 1 then .error .errShortTypedTx
  else
    match b with
    | first :: rest =>
      if first = DynamicFeeTxType then
        match DynamicFeeTx.decode rest with
        | some tx => .ok (.dynamicFee tx)
        | none => .error .errPayloadDecode
      else .error .errTxTypeNotSupported
    | [] => .error .errShortTypedTx

/-- `Transaction.UnmarshalBinary`: decode the canonical encoding (it
defers entirely to `decodeTyped`). -/
def unmarshalBinary (b : Bytes) : Except TxCodecErr TxData := decodeTyped b

/-- `Transaction.Hash` — modelled from the spec: the canonical identity
of a transaction, a collision-free function of the type discriminator and
the consensus fields (`prefixedRlpHash`; the keccak hash is not under
src/, so the pair itself stands in for its hash). -/
def txHash (tx : TxData) : Nat × TxData := (tx.txType, tx)

/-- A well-behaved interpreter (the journal discipline of the missing
`ZVMInterpreter.Run`, modelled from the spec, section 4.2): nested frames
may open and revert their own checkpoints but never disturb checkpoints
that were already open when the frame was entered, and a frame cannot end
with more gas than it was given. -/
def InterpOK (f : Interp) : Prop :=
  ∀ s c inp ro,
    (∀ i, i < s.snaps.length → (f s c inp ro).sdb.snaps[i]? = s.snaps[i]?) ∧
    (f s c inp ro).gasLeft ≤ c.gas

/-- A read-only-safe interpreter (the `StaticCall` contract of the
missing interpreter, modelled from the spec, section 4.4): with the
read-only flag set, no state-mutating operation takes effect, so the
world state is unchanged by the run. -/
def ReadOnlyOK (f : Interp) : Prop :=
  ∀ s c inp, (f s c inp true).sdb.cur.world = s.cur.world

/-- The invariant threaded through the `Prestate.Apply` transaction
loop: the remaining pool plus the gas used so far equals the block gas
limit, and the receipts account for exactly the gas used. -/
def PoolInv (gasLimit : Nat) (acc : ApplyAcc) : Prop :=
  acc.gaspool + acc.gasUsed = gasLimit ∧
  (acc.receipts.map Receipt.gasUsed).sum = acc.gasUsed

/-! ### Concrete interpreter and state instances for the claim witnesses -/

/-- An interpreter that halts at once with an internal error, leaving
state and checkpoints untouched. -/
def errInterp : Interp := fun s _ _ _ => ⟨s, none, 0, some (.other 0)⟩

/-- An interpreter that halts successfully with no output and no state
change. -/
def haltInterp : Interp := fun s _ _ _ => ⟨s, none, 0, none⟩

/-- An interpreter whose init frame returns a one-byte contract code with
all gas consumed, so the code-storage charge fails. -/
def oneByteInterp : Interp := fun s _ _ _ => ⟨s, some [1], 0, none⟩

/-- An interpreter whose init frame returns code one byte longer than the
maximum deployed size, with gas to spare. -/
def longInterp : Interp :=
  fun s c _ _ => ⟨s, some (List.replicate (MaxCodeSize + 1) 0), c.gas, none⟩

/-- An interpreter that reverts immediately, returning its remaining
gas. -/
def revInterp : Interp :=
  fun s c _ _ => ⟨s, some [], c.gas, some .errExecutionReverted⟩

/-- A two-account example world: an externally owned account 1 and a
contract account 2. -/
def exWorld : World := ⟨[(1, ⟨0, 1000000, [], []⟩), (2, ⟨0, 0, [9], []⟩)]⟩

/-- The example state database over `exWorld`. -/
def exSDB : SDB := ⟨⟨exWorld, [], []⟩, []⟩


namespace World

theorem findA_setA_self (l : List (Address × Account)) (a : Address) (x : Account) :
    findA (setA l a x) a = some x := by
  induction l with
  | nil => simp [setA, findA]
  | cons p t ih =>
    by_cases h : p.1 = a
    · simp [setA, h, findA]
    · simp [setA, h, findA, ih]

theorem findA_setA_other (l : List (Address × Account)) (a b : Address) (x : Account)
    (h : b ≠ a) : findA (setA l a x) b = findA l b := by
  induction l with
  | nil =>
    simp only [setA, findA]
    rw [if_neg (Ne.symm h)]
  | cons p t ih =>
    obtain ⟨k, v⟩ := p
    by_cases hp : k = a
    · subst hp
      simp only [setA, if_pos rfl, findA]
      rw [if_neg (Ne.symm h), if_neg (Ne.symm h)]
    · simp only [setA, if_neg hp, findA, ih]

theorem find_set_self (w : World) (a : Address) (x : Account) :
    (w.set a x).find a = some x := findA_setA_self w.accounts a x

theorem find_set_other (w : World) (a b : Address) (x : Account) (h : b ≠ a) :
    (w.set a x).find b = w.find b := findA_setA_other w.accounts a b x h

theorem getAcct_set_self (w : World) (a : Address) (x : Account) :
    (w.set a x).getAcct a = x := by
  simp [getAcct, find_set_self]

theorem getAcct_subBalance_self (w : World) (a : Address) (v : Nat) :
    (w.subBalance a v).getAcct a
      = { w.getAcct a with balance := (w.getAcct a).balance - v } := by
  unfold subBalance
  by_cases h : v = 0
  · simp [h]
  · simp [h, getAcct_set_self]

theorem getAcct_addBalance_self (w : World) (a : Address) (v : Nat) :
    (w.addBalance a v).getAcct a
      = { w.getAcct a with balance := (w.getAcct a).balance + v } := by
  unfold addBalance
  by_cases h : v = 0
  · simp [h]
  · simp [h, getAcct_set_self]

theorem find_setNonce_self (w : World) (a : Address) (n : Nat) :
    (w.setNonce a n).find a = some { w.getAcct a with nonce := n } := by
  simp [setNonce, find_set_self]

theorem find_subBalance_other (w : World) (a b : Address) (v : Nat) (h : b ≠ a) :
    (w.subBalance a v).find b = w.find b := by
  unfold subBalance
  by_cases hv : v = 0
  · simp [hv]
  · simp [hv, find_set_other _ _ _ _ h]

theorem find_addBalance_other (w : World) (a b : Address) (v : Nat) (h : b ≠ a) :
    (w.addBalance a v).find b = w.find b := by
  unfold addBalance
  by_cases hv : v = 0
  · simp [hv]
  · simp [hv, find_set_other _ _ _ _ h]

theorem find_setNonce_other (w : World) (a b : Address) (n : Nat) (h : b ≠ a) :
    (w.setNonce a n).find b = w.find b := by
  simp [setNonce, find_set_other _ _ _ _ h]

theorem find_addBalance_present (w : World) (a : Address) (v : Nat) (acct : Account)
    (h : w.find a = some acct) :
    (w.addBalance a v).find a = some { acct with balance := acct.balance + v } := by
  unfold addBalance
  by_cases hv : v = 0
  · simp [hv, h]
  · simp [hv, find_set_self, getAcct, h]

theorem getBalance_subBalance_self (w : World) (a : Address) (v : Nat) :
    (w.subBalance a v).getBalance a = w.getBalance a - v := by
  simp [getBalance, getAcct_subBalance_self]

theorem getNonce_subBalance_self (w : World) (a : Address) (v : Nat) :
    (w.subBalance a v).getNonce a = w.getNonce a := by
  simp [getNonce, getAcct_subBalance_self]

theorem addBalance_zero (w : World) (a : Address) : w.addBalance a 0 = w := by
  simp [addBalance]

end World

theorem List.getElem?_append_len (l : List SDBState) (x : SDBState) :
    (l ++ [x])[l.length]? = some x := by
  induction l with
  | nil => rfl
  | cons h t ih => simp [ih]

namespace SDB

theorem snapshot_cur (s : SDB) : s.snapshot.2.cur = s.cur := rfl

theorem snaps_setNonce (s : SDB) (a : Address) (n : Nat) :
    (s.setNonce a n).snaps = s.snaps := rfl

theorem snaps_createAccount (s : SDB) (a : Address) :
    (s.createAccount a).snaps = s.snaps := rfl

theorem snaps_transfer (s : SDB) (a b : Address) (v : Nat) :
    (s.transfer a b v).snaps = s.snaps := rfl

theorem snaps_addBalance (s : SDB) (a : Address) (v : Nat) :
    (s.addBalance a v).snaps = s.snaps := rfl

theorem snaps_addAddressToAccessList (s : SDB) (a : Address) :
    (s.addAddressToAccessList a).snaps = s.snaps := rfl

/-- Reverting to a snapshot whose saved state is still in place restores
exactly that saved state as the live state. -/
theorem revert_of_mem (s : SDB) (id : Nat) (st : SDBState)
    (h : s.snaps[id]? = some st) : (s.revertToSnapshot id).cur = st := by
  simp [revertToSnapshot, h]

end SDB

/-- The common error epilogue of the three call variants: when the frame
ended in an error, reverting the entry snapshot restores the entry
state. -/
theorem ZVM.call_epilogue (s0 : SDB) (r : CallResult)
    (hr : r.sdb.snaps[s0.snapshot.1]? = some s0.cur) :
    (if r.err ≠ none then
        { r with sdb := r.sdb.revertToSnapshot s0.snapshot.1,
                 gasLeft := if r.err = some VMErr.errExecutionReverted then r.gasLeft else 0 }
      else r).err ≠ none →
    (if r.err ≠ none then
        { r with sdb := r.sdb.revertToSnapshot s0.snapshot.1,
                 gasLeft := if r.err = some VMErr.errExecutionReverted then r.gasLeft else 0 }
      else r).sdb.cur = s0.cur := by
  split
  · intro _
    exact SDB.revert_of_mem _ _ _ hr
  · next hne => intro h; exact absurd h hne

/-- `ZVM.Call` reverts on error: whatever error the frame ends with, the
live state is back to the entry state. -/
theorem ZVM.call_err_cur (zvm : ZVM) (hok : InterpOK zvm.interp)
    (sdb : SDB) (caller addr : Address) (input : Bytes) (gas value : Nat) :
    (zvm.Call sdb caller addr input gas value).err ≠ none →
    (zvm.Call sdb caller addr input gas value).sdb.cur = sdb.cur := by
  unfold ZVM.Call
  dsimp only
  split
  · intro _; rfl
  split
  · intro _; rfl
  split
  · intro h; exact absurd rfl h
  refine ZVM.call_epilogue sdb _ ?_
  repeat' split
  all_goals
    first
    | (simp [SDB.snapshot, SDB.transfer, SDB.createAccount, List.getElem?_append_len]; done)
    | (rw [(hok _ _ input false).1 (sdb.snapshot.1) ?_] <;>
        first
        | (simp [SDB.snapshot, SDB.transfer, SDB.createAccount, List.getElem?_append_len]; done)
        | (simp [SDB.snapshot, SDB.transfer, SDB.createAccount]; omega))

/-- `ZVM.DelegateCall` reverts on error. -/
theorem ZVM.delegate_err_cur (zvm : ZVM) (hok : InterpOK zvm.interp)
    (sdb : SDB) (caller addr : Address) (input : Bytes) (gas : Nat) :
    (zvm.DelegateCall sdb caller addr input gas).err ≠ none →
    (zvm.DelegateCall sdb caller addr input gas).sdb.cur = sdb.cur := by
  unfold ZVM.DelegateCall
  dsimp only
  split
  · intro _; rfl
  refine ZVM.call_epilogue sdb _ ?_
  repeat' split
  all_goals
    first
    | (simp [SDB.snapshot, List.getElem?_append_len]; done)
    | (rw [(hok _ _ input false).1 (sdb.snapshot.1) ?_] <;>
        first
        | (simp [SDB.snapshot, List.getElem?_append_len]; done)
        | (simp [SDB.snapshot]; omega))

/-- `ZVM.StaticCall` reverts on error. -/
theorem ZVM.static_err_cur (zvm : ZVM) (hok : InterpOK zvm.interp)
    (sdb : SDB) (caller addr : Address) (input : Bytes) (gas : Nat) :
    (zvm.StaticCall sdb caller addr input gas).err ≠ none →
    (zvm.StaticCall sdb caller addr input gas).sdb.cur = sdb.cur := by
  unfold ZVM.StaticCall
  dsimp only
  split
  · intro _; rfl
  refine ZVM.call_epilogue sdb _ ?_
  repeat' split
  all_goals
    first
    | (simp [SDB.snapshot, SDB.addBalance, List.getElem?_append_len]; done)
    | (rw [(hok _ _ input true).1 (sdb.snapshot.1) ?_] <;>
        first
        | (simp [SDB.snapshot, SDB.addBalance, List.getElem?_append_len]; done)
        | (simp [SDB.snapshot, SDB.addBalance]; omega))

/-- With a read-only-safe interpreter, `ZVM.StaticCall` leaves the world
state unchanged on every path: a successful run may not mutate it, and a
failing run is reverted. -/
theorem ZVM.static_world (zvm : ZVM) (hok : InterpOK zvm.interp) (hro : ReadOnlyOK zvm.interp)
    (sdb : SDB) (caller addr : Address) (input : Bytes) (gas : Nat) :
    (zvm.StaticCall sdb caller addr input gas).sdb.cur.world = sdb.cur.world := by
  unfold ZVM.StaticCall
  dsimp only
  split
  · rfl
  repeat' split
  all_goals first
  | (simp [SDB.snapshot, SDB.addBalance, World.addBalance_zero]; done)
  | (rw [hro _ _ input]; simp [SDB.snapshot, SDB.addBalance, World.addBalance_zero]; done)
  | (rw [SDB.revert_of_mem _ _ sdb.cur ?_] <;>
      first
      | (simp [SDB.snapshot, SDB.addBalance, World.addBalance_zero, List.getElem?_append_len]; done)
      | (rw [(hok _ _ input true).1 (sdb.snapshot.1) ?_] <;>
          first
          | (simp [SDB.snapshot, SDB.addBalance, List.getElem?_append_len]; done)
          | (simp [SDB.snapshot, SDB.addBalance]; omega)))

/-- A precompiled contract never returns more gas than it was given. -/
theorem runPrecompiled_gasLeft_le (p : Precompile) (input : Bytes) (gas : Nat) :
    (runPrecompiledContract p input gas).2.1 ≤ gas := by
  unfold runPrecompiledContract
  dsimp only
  split
  · simp
  · simp [Nat.sub_le]

/-- `ZVM.Call` never returns more gas than it was given. -/
theorem ZVM.call_gasLeft_le (zvm : ZVM) (hok : InterpOK zvm.interp)
    (sdb : SDB) (caller addr : Address) (input : Bytes) (gas value : Nat) :
    (zvm.Call sdb caller addr input gas value).gasLeft ≤ gas := by
  unfold ZVM.Call
  dsimp only
  repeat' split
  all_goals first
  | (simp; done)
  | (simp [runPrecompiled_gasLeft_le]; done)
  | (exact (hok _ _ input false).2)
  | (exact Nat.zero_le _)

theorem ZVM.createEpilogue_gasLeft_le (snapId : Nat) (address : Address) (o : CallResult) :
    (ZVM.createEpilogue snapId address o).2.1 ≤ o.gasLeft := by
  unfold ZVM.createEpilogue
  dsimp only
  repeat' split
  all_goals simp [Nat.sub_le]

theorem ZVM.createEpilogue_err_sdb (snapId : Nat) (address : Address) (o : CallResult) :
    (ZVM.createEpilogue snapId address o).2.2 ≠ none →
    (ZVM.createEpilogue snapId address o).2.2 ≠ some .errCodeStoreOutOfGas →
    (ZVM.createEpilogue snapId address o).1 = o.sdb.revertToSnapshot snapId := by
  unfold ZVM.createEpilogue
  dsimp only
  repeat' split
  all_goals intro h1 h2
  all_goals first | rfl | simp_all | omega

theorem ZVM.createEpilogue_maxcode (snapId : Nat) (address : Address) (o : CallResult)
    (herr : o.err = none) (hlen : MaxCodeSize < (o.ret.getD []).length) :
    ZVM.createEpilogue snapId address o =
      (o.sdb.revertToSnapshot snapId, 0, some VMErr.errMaxCodeSizeExceeded) := by
  unfold ZVM.createEpilogue
  simp [herr, hlen]

theorem ZVM.create_err_world (zvm : ZVM) (hok : InterpOK zvm.interp)
    (sdb : SDB) (caller : Address) (code : Bytes) (gas value : Nat) (address : Address)
    (hdepth : ¬ zvm.depth > CallCreateDepth)
    (hbal : sdb.canTransfer caller value = true)
    (hnn : sdb.getNonce caller + 1 < U64Mod) :
    (zvm.create sdb caller code gas value address).err ≠ none →
    (zvm.create sdb caller code gas value address).err ≠ some .errCodeStoreOutOfGas →
    (zvm.create sdb caller code gas value address).sdb.cur.world
      = sdb.cur.world.setNonce caller (sdb.getNonce caller + 1) := by
  unfold ZVM.create
  dsimp only
  rw [if_neg hdepth, if_neg (by simp [hbal]), if_neg (by omega)]
  split
  · intro _ _
    rfl
  · intro h1 h2
    show (ZVM.createEpilogue _ _ _).1.cur.world = _
    rw [ZVM.createEpilogue_err_sdb _ _ _ h1 h2]
    rw [SDB.revert_of_mem _ _
      ((sdb.setNonce caller (sdb.getNonce caller + 1)).addAddressToAccessList address).cur ?_]
    · rfl
    rw [(hok _ _ [] false).1 _ ?_]
    · simp [ZVM.createRunState, SDB.snapshot, SDB.transfer, SDB.setNonce, SDB.createAccount,
        SDB.addAddressToAccessList, List.getElem?_append_len]
    · simp [ZVM.createRunState, SDB.snapshot, SDB.transfer, SDB.setNonce, SDB.createAccount,
        SDB.addAddressToAccessList]

theorem ZVM.create_gasLeft_le (zvm : ZVM) (hok : InterpOK zvm.interp)
    (sdb : SDB) (caller : Address) (code : Bytes) (gas value : Nat) (address : Address) :
    (zvm.create sdb caller code gas value address).gasLeft ≤ gas := by
  unfold ZVM.create
  dsimp only
  repeat' split
  all_goals first
  | (simp; done)
  | (exact Nat.zero_le _)
  | (exact le_trans (ZVM.createEpilogue_gasLeft_le _ _ _) ((hok _ _ [] false).2))

theorem applyMessage_pool_exceeded (zvm : ZVM) (msg : Msg) (gp : Nat) (sdb : SDB)
    (h : gp < msg.gasLimit) :
    ∃ e, (ApplyMessage zvm msg gp sdb).result = .error e := by
  unfold ApplyMessage
  dsimp only
  split
  · exact ⟨_, rfl⟩
  split
  · exact ⟨_, rfl⟩
  exact ⟨_, rfl⟩

theorem List.take_len_append (l : List SDBState) (x : SDBState) :
    (l ++ [x]).take l.length = l := by
  induction l with
  | nil => rfl
  | cons h t ih => simp [ih]

/-- Reverting a snapshot that was pushed on entry and left undisturbed
restores the pre-snapshot state database exactly. -/
theorem SDB.revert_push (s : SDB) (post : SDB)
    (h : post.snaps = s.snaps ++ [s.cur]) :
    post.revertToSnapshot s.snaps.length = s := by
  simp [SDB.revertToSnapshot, h, List.getElem?_append_len, List.take_len_append]

/-- A rejected transaction leaves no trace: every `ApplyMessage`
validation error happens before execution, so reverting the caller's
snapshot restores exactly the pre-transaction state (the mirror of the
`RevertToSnapshot` call in `Prestate.Apply`). -/
theorem applyMessage_err_revert (zvm : ZVM) (msg : Msg) (gp : Nat) (s : SDB) :
    ∀ e, (ApplyMessage zvm msg gp s.snapshot.2).result = .error e →
    (ApplyMessage zvm msg gp s.snapshot.2).sdb.revertToSnapshot s.snapshot.1 = s := by
  unfold ApplyMessage
  dsimp only
  split
  · intro e _; exact SDB.revert_push s _ rfl
  split
  · intro e _; exact SDB.revert_push s _ rfl
  split
  · intro e _; exact SDB.revert_push s _ rfl
  split
  · intro e _; exact SDB.revert_push s _ rfl
  split
  · intro e h; simp at h
  · intro e h; simp at h

/-- Arithmetic core of the gas-pool bookkeeping: buy the whole limit,
refund the leftover; the pool change is exactly the gas used, which is
at most the transaction's gas limit. -/
theorem finish_gp (gp limit ig left : Nat) (hpool : ¬ gp < limit) (hig : ¬ limit < ig)
    (hleft : left ≤ limit - ig) :
    ((gp - limit) + left) + (limit - left) = gp ∧ limit - left ≤ limit := by omega

/-- An included transaction returns `gasLimit - leftover` gas to the
block pool: pool-out plus gas-used equals pool-in, and gas-used is
bounded by the transaction's own gas limit. -/
theorem applyMessage_ok_gp (zvm : ZVM) (hok : InterpOK zvm.interp)
    (msg : Msg) (gp : Nat) (sdb : SDB) :
    ∀ res, (ApplyMessage zvm msg gp sdb).result = .ok res →
      (ApplyMessage zvm msg gp sdb).gp + res.usedGas = gp ∧ res.usedGas ≤ msg.gasLimit := by
  unfold ApplyMessage
  dsimp only
  split
  · intro res h; simp at h
  split
  · intro res h; simp at h
  split
  · intro res h; simp at h
  next hpool =>
  split
  · intro res h; simp at h
  next hig =>
  split
  · intro res h
    injection h with h
    subst h
    exact finish_gp _ _ _ _ hpool hig (ZVM.call_gasLeft_le zvm hok _ _ _ _ _ _)
  · intro res h
    injection h with h
    subst h
    exact finish_gp _ _ _ _ hpool hig (ZVM.create_gasLeft_le zvm hok _ _ _ _ _ _)

theorem applyStep_inv (zvm : ZVM) (hok : InterpOK zvm.interp) (gasLimit : Nat)
    (acc : ApplyAcc) (idx : Nat) (msg : Msg) (h : PoolInv gasLimit acc) :
    PoolInv gasLimit (applyStep zvm acc idx msg) := by
  unfold applyStep
  dsimp only
  split
  · exact h
  next res heq =>
    obtain ⟨h1, h2⟩ := applyMessage_ok_gp zvm hok msg acc.gaspool _ res heq
    constructor
    · show (ApplyMessage zvm msg acc.gaspool _).gp + (acc.gasUsed + res.usedGas) = gasLimit
      have := h.1
      omega
    · show ((acc.receipts ++ [_]).map Receipt.gasUsed).sum = acc.gasUsed + res.usedGas
      simp [mkReceipt, h.2]

theorem applyLoop_inv (zvm : ZVM) (hok : InterpOK zvm.interp) (gasLimit : Nat)
    (l : List (Nat × Msg)) (acc : ApplyAcc) (h : PoolInv gasLimit acc) :
    PoolInv gasLimit (l.foldl (fun (a : ApplyAcc) p => applyStep zvm a p.1 p.2) acc) := by
  induction l generalizing acc with
  | nil => exact h
  | cons p t ih => exact ih _ (applyStep_inv zvm hok gasLimit acc p.1 p.2 h)

/-- After fee deduction, the sender can still cover the transferred
value (step (c) of spec section 4.5 guarantees it). -/
theorem canTransfer_after_fee (W : World) (s : Address) (mg v : Nat)
    (h : ¬ W.getBalance s < mg + v) :
    (W.subBalance s mg).canTransfer s v = true := by
  simp [World.canTransfer, World.getBalance_subBalance_self]
  omega

/-- The net effect on the world state of: fee deduction, nonce increment,
execution fully reverted, leftover-gas refund — every account but the
sender is untouched, and the sender keeps the nonce increment and pays
exactly for the gas used. -/
theorem c3_world_shape (W : World) (s : Address) (mg k up : Nat)
    (h : (W.getBalance s - mg) + k = W.getBalance s - up) :
    (∀ a, a ≠ s →
      (((W.subBalance s mg).setNonce s (W.getNonce s + 1)).addBalance s k).find a
        = W.find a) ∧
    (((W.subBalance s mg).setNonce s (W.getNonce s + 1)).addBalance s k).find s
      = some { W.getAcct s with
               nonce := ((W.getAcct s).nonce + 1)
               balance := (W.getBalance s - up) } := by
  constructor
  · intro a ha
    rw [World.find_addBalance_other _ _ _ _ ha, World.find_setNonce_other _ _ _ _ ha,
      World.find_subBalance_other _ _ _ _ ha]
  · have hset := World.find_setNonce_self (W.subBalance s mg) s (W.getNonce s + 1)
    rw [World.find_addBalance_present _ _ _ _ hset]
    rw [World.getAcct_subBalance_self]
    simp only [World.getNonce, World.getBalance] at *
    rw [show ((W.getAcct s).balance - mg) + k = (W.getAcct s).balance - up from h]

/-- Balance bookkeeping of a reverted transaction: the up-front fee
deduction followed by the leftover refund equals deducting the fee for
the gas actually used. -/
theorem c3_arith (bal L p limit ig : Nat) (hbal2 : limit * p ≤ bal)
    (hleft : L ≤ limit - ig) :
    (bal - limit * p) + L * p = bal - (limit - L) * p := by
  rw [Nat.sub_mul]
  have hL : L ≤ limit := le_trans hleft (Nat.sub_le _ _)
  have h1 : L * p ≤ limit * p := Nat.mul_le_mul_right _ hL
  omega

/-- Lift of `c3_world_shape` to the state database: if the live state
after execution equals the post-(fee, nonce-bump) state — i.e. the
execution was fully reverted — then after the refund only the sender's
account differs from the pre-transaction state, by the nonce increment
and the net fee. -/
theorem c3_sdb_shape (sdb rsdb : SDB) (sender : Address) (mg k up : Nat)
    (hc : rsdb.cur.world
      = (sdb.cur.world.subBalance sender mg).setNonce sender
          (sdb.cur.world.getNonce sender + 1))
    (h : (sdb.cur.world.getBalance sender - mg) + k = sdb.cur.world.getBalance sender - up) :
    (∀ a, a ≠ sender →
      (rsdb.addBalance sender k).cur.world.find a = sdb.cur.world.find a) ∧
    (rsdb.addBalance sender k).cur.world.find sender
      = some { sdb.cur.world.getAcct sender with
               nonce := ((sdb.cur.world.getAcct sender).nonce + 1)
               balance := (sdb.cur.world.getBalance sender - up) } := by
  have hw : (rsdb.addBalance sender k).cur.world
      = ((sdb.cur.world.subBalance sender mg).setNonce sender
          (sdb.cur.world.getNonce sender + 1)).addBalance sender k := by
    show rsdb.cur.world.addBalance sender k = _
    rw [hc]
  rw [hw]
  exact c3_world_shape sdb.cur.world sender mg k up h

/-- C3 (amended): for every transaction whose execution reverts — except
contract creations failing with `ErrCodeStoreOutOfGas`, whose partial
state changes persist — the post-state equals the state immediately
before execution at every account other than the sender, while the
sender keeps exactly the nonce increment and the deduction of the fee
for the gas actually used; in particular `ZVM.create` increments the
caller's nonce before taking its snapshot, so the revert never undoes
the increment. -/
theorem c3_revert_nonce_fee (zvm : ZVM) (msg : Msg) (gp : Nat) (sdb : SDB)
    (hok : InterpOK zvm.interp)
    (hdepth : ¬ zvm.depth > CallCreateDepth)
    (hnn : sdb.getNonce msg.sender + 1 < U64Mod) :
    ∀ res, (ApplyMessage zvm msg gp sdb).result = .ok res →
      res.failed = true →
      res.vmerr ≠ some .errCodeStoreOutOfGas →
      (∀ a, a ≠ msg.sender →
        (ApplyMessage zvm msg gp sdb).sdb.cur.world.find a = sdb.cur.world.find a) ∧
      (ApplyMessage zvm msg gp sdb).sdb.cur.world.find msg.sender
        = some { sdb.cur.world.getAcct msg.sender with
                 nonce := ((sdb.cur.world.getAcct msg.sender).nonce + 1)
                 balance := ((sdb.cur.world.getAcct msg.sender).balance
                   - res.usedGas * msg.gasPrice) } := by
  unfold ApplyMessage
  dsimp only
  split
  · intro res h; simp at h
  next hnonce =>
  split
  · intro res h; simp at h
  next hbal =>
  split
  · intro res h; simp at h
  next hpool =>
  split
  · intro res h; simp at h
  next hig =>
  have hbal2 : msg.gasLimit * msg.gasPrice ≤ sdb.cur.world.getBalance msg.sender := by
    simp only [SDB.getBalance] at hbal
    omega
  split
  next toAddr heq =>
    -- message call: the sender's nonce is bumped, then the call reverts
    intro res h hfail hncs
    injection h with h
    subst h
    simp only [ExecResult.failed] at hfail
    have herr := Option.ne_none_iff_isSome.mpr hfail
    have hcur := ZVM.call_err_cur zvm hok
      ((sdb.subBalance msg.sender (msg.gasLimit * msg.gasPrice)).setNonce msg.sender
        (sdb.getNonce msg.sender + 1))
      msg.sender toAddr msg.data
      (msg.gasLimit - intrinsicGas msg.data msg.recipient.isNone) msg.value herr
    have hleft := ZVM.call_gasLeft_le zvm hok
      ((sdb.subBalance msg.sender (msg.gasLimit * msg.gasPrice)).setNonce msg.sender
        (sdb.getNonce msg.sender + 1))
      msg.sender toAddr msg.data
      (msg.gasLimit - intrinsicGas msg.data msg.recipient.isNone) msg.value
    exact c3_sdb_shape sdb _ msg.sender (msg.gasLimit * msg.gasPrice) _ _
      (congrArg SDBState.world hcur)
      (c3_arith _ _ _ _ _ hbal2 hleft)
  next heq =>
    -- contract creation: `create` bumps the nonce itself, then reverts
    intro res h hfail hncs
    injection h with h
    subst h
    simp only [ExecResult.failed] at hfail
    have herr := Option.ne_none_iff_isSome.mpr hfail
    have hbalT : (sdb.subBalance msg.sender (msg.gasLimit * msg.gasPrice)).canTransfer
        msg.sender msg.value = true := by
      have := canTransfer_after_fee sdb.cur.world msg.sender
        (msg.gasLimit * msg.gasPrice) msg.value (by simpa [SDB.getBalance] using hbal)
      exact this
    have hnn2 : (sdb.subBalance msg.sender (msg.gasLimit * msg.gasPrice)).getNonce
        msg.sender + 1 < U64Mod := by
      show (sdb.cur.world.subBalance msg.sender (msg.gasLimit * msg.gasPrice)).getNonce
        msg.sender + 1 < U64Mod
      rw [World.getNonce_subBalance_self]
      exact hnn
    have hw := ZVM.create_err_world zvm hok
      (sdb.subBalance msg.sender (msg.gasLimit * msg.gasPrice)) msg.sender msg.data
      (msg.gasLimit - intrinsicGas msg.data msg.recipient.isNone) msg.value
      (ZVM.createAddress msg.sender
        ((sdb.subBalance msg.sender (msg.gasLimit * msg.gasPrice)).getNonce msg.sender))
      hdepth hbalT hnn2 herr hncs
    have hleft := ZVM.create_gasLeft_le zvm hok
      (sdb.subBalance msg.sender (msg.gasLimit * msg.gasPrice)) msg.sender msg.data
      (msg.gasLimit - intrinsicGas msg.data msg.recipient.isNone) msg.value
      (ZVM.createAddress msg.sender
        ((sdb.subBalance msg.sender (msg.gasLimit * msg.gasPrice)).getNonce msg.sender))
    have hw2 : (ZVM.create zvm (sdb.subBalance msg.sender (msg.gasLimit * msg.gasPrice))
        msg.sender msg.data
        (msg.gasLimit - intrinsicGas msg.data msg.recipient.isNone) msg.value
        (ZVM.createAddress msg.sender
          ((sdb.subBalance msg.sender (msg.gasLimit * msg.gasPrice)).getNonce
            msg.sender))).sdb.cur.world
        = (sdb.cur.world.subBalance msg.sender (msg.gasLimit * msg.gasPrice)).setNonce
            msg.sender (sdb.cur.world.getNonce msg.sender + 1) := by
      rw [hw]
      show (sdb.cur.world.subBalance msg.sender (msg.gasLimit * msg.gasPrice)).setNonce
        msg.sender ((sdb.cur.world.subBalance msg.sender
          (msg.gasLimit * msg.gasPrice)).getNonce msg.sender + 1) = _
      rw [World.getNonce_subBalance_self]
    exact c3_sdb_shape sdb _ msg.sender (msg.gasLimit * msg.gasPrice) _ _ hw2
      (c3_arith _ _ _ _ _ hbal2 hleft)

theorem World.getNonce_setNonce_other (w : World) (a b : Address) (n : Nat) (h : b ≠ a) :
    (w.setNonce a n).getNonce b = w.getNonce b := by
  simp [World.getNonce, World.getAcct, World.find_setNonce_other _ _ _ _ h]

theorem World.getCodeHash_setNonce_other (w : World) (a b : Address) (n : Nat) (h : b ≠ a) :
    (w.setNonce a n).getCodeHash b = w.getCodeHash b := by
  simp [World.getCodeHash, World.find_setNonce_other _ _ _ _ h]

/-- An account whose code hash is the zero hash or the empty-code hash
holds no code. -/
theorem World.getCode_empty_of_hash (w : World) (a : Address)
    (h : w.getCodeHash a = .zero ∨ w.getCodeHash a = .hashOf []) :
    w.getCode a = [] := by
  unfold World.getCodeHash at h
  unfold World.getCode World.getAcct
  cases hf : w.find a with
  | none => simp [Account.empty]
  | some acct =>
    rw [hf] at h
    simp only [CodeHash.hashOf.injEq, reduceCtorEq, false_or] at h
    simp [h]

/-- `ZVM.create` on any error other than `ErrCodeStoreOutOfGas` either
left the state untouched (pre-snapshot failures) or reverted it to the
snapshot, which differs from the entry state only by the caller's nonce
increment. -/
theorem ZVM.create_err_world_disj (zvm : ZVM) (hok : InterpOK zvm.interp)
    (sdb : SDB) (caller : Address) (code : Bytes) (gas value : Nat) (address : Address) :
    (zvm.create sdb caller code gas value address).err ≠ none →
    (zvm.create sdb caller code gas value address).err ≠ some .errCodeStoreOutOfGas →
    (zvm.create sdb caller code gas value address).sdb.cur.world = sdb.cur.world ∨
    (zvm.create sdb caller code gas value address).sdb.cur.world
      = sdb.cur.world.setNonce caller (sdb.getNonce caller + 1) := by
  unfold ZVM.create
  dsimp only
  split
  · intro _ _; exact Or.inl rfl
  split
  · intro _ _; exact Or.inl rfl
  split
  · intro _ _; exact Or.inl rfl
  split
  · intro _ _; exact Or.inr rfl
  · intro h1 h2
    refine Or.inr ?_
    show (ZVM.createEpilogue _ _ _).1.cur.world = _
    rw [ZVM.createEpilogue_err_sdb _ _ _ h1 h2]
    rw [SDB.revert_of_mem _ _
      ((sdb.setNonce caller (sdb.getNonce caller + 1)).addAddressToAccessList address).cur ?_]
    · rfl
    rw [(hok _ _ [] false).1 _ ?_]
    · simp [ZVM.createRunState, SDB.snapshot, SDB.transfer, SDB.setNonce, SDB.createAccount,
        SDB.addAddressToAccessList, List.getElem?_append_len]
    · simp [ZVM.createRunState, SDB.snapshot, SDB.transfer, SDB.setNonce, SDB.createAccount,
        SDB.addAddressToAccessList]

theorem World.getCode_setNonce_other (w : World) (a b : Address) (n : Nat) (h : b ≠ a) :
    (w.setNonce a n).getCode b = w.getCode b := by
  simp [World.getCode, World.getAcct, World.find_setNonce_other _ _ _ _ h]

/-- C7: a contract creation whose init code runs without error but
returns data longer than `MaxCodeSize` fails with exactly
`ErrMaxCodeSizeExceeded`, consumes all remaining gas of the creation
frame (`leftOverGas = 0`), reverts the creation's state changes — the
post-state is the entry state plus only the caller's pre-snapshot nonce
increment — and leaves the would-be contract address with no code. -/
theorem c7_maxcode_reverts (zvm : ZVM) (sdb : SDB) (caller : Address) (code : Bytes)
    (gas value : Nat) (address : Address)
    (hok : InterpOK zvm.interp)
    (hdepth : ¬ zvm.depth > CallCreateDepth)
    (hbal : sdb.canTransfer caller value = true)
    (hnn : sdb.getNonce caller + 1 < U64Mod)
    (hne : address ≠ caller)
    (hnonce0 : sdb.getNonce address = 0)
    (hhash : sdb.getCodeHash address = .zero ∨ sdb.getCodeHash address = .hashOf [])
    (hrun : (zvm.interp (ZVM.createRunState sdb caller value address)
        ⟨caller, address, value, gas, code⟩ [] false).err = none)
    (hlen : MaxCodeSize < ((zvm.interp (ZVM.createRunState sdb caller value address)
        ⟨caller, address, value, gas, code⟩ [] false).ret.getD []).length) :
    (zvm.create sdb caller code gas value address).err = some .errMaxCodeSizeExceeded ∧
    (zvm.create sdb caller code gas value address).gasLeft = 0 ∧
    (zvm.create sdb caller code gas value address).sdb.cur.world
      = sdb.cur.world.setNonce caller (sdb.getNonce caller + 1) ∧
    (zvm.create sdb caller code gas value address).sdb.cur.world.getCode address = [] := by
  have hg : ((sdb.setNonce caller (sdb.getNonce caller + 1)).addAddressToAccessList
      address).getNonce address = sdb.getNonce address := by
    show (sdb.cur.world.setNonce caller (sdb.getNonce caller + 1)).getNonce address = _
    exact World.getNonce_setNonce_other _ _ _ _ hne
  have hh : ((sdb.setNonce caller (sdb.getNonce caller + 1)).addAddressToAccessList
      address).getCodeHash address = sdb.getCodeHash address := by
    show (sdb.cur.world.setNonce caller (sdb.getNonce caller + 1)).getCodeHash address = _
    exact World.getCodeHash_setNonce_other _ _ _ _ hne
  have hcol : ¬ (((sdb.setNonce caller (sdb.getNonce caller + 1)).addAddressToAccessList
      address).getNonce address ≠ 0 ∨
      (((sdb.setNonce caller (sdb.getNonce caller + 1)).addAddressToAccessList
        address).getCodeHash address ≠ CodeHash.zero ∧
       ((sdb.setNonce caller (sdb.getNonce caller + 1)).addAddressToAccessList
        address).getCodeHash address ≠ CodeHash.hashOf [])) := by
    rw [hg, hh, hnonce0]
    rcases hhash with h | h <;> simp [h]
  unfold ZVM.create
  dsimp only
  rw [if_neg hdepth, if_neg (by simp [hbal]), if_neg (by omega), if_neg hcol]
  dsimp only
  rw [ZVM.createEpilogue_maxcode _ address _ hrun hlen]
  have hworld : ((zvm.interp (ZVM.createRunState sdb caller value address)
      ⟨caller, address, value, gas, code⟩ [] false).sdb.revertToSnapshot
        ((sdb.setNonce caller (sdb.getNonce caller + 1)).addAddressToAccessList
          address).snapshot.1).cur.world
      = sdb.cur.world.setNonce caller (sdb.getNonce caller + 1) := by
    rw [SDB.revert_of_mem _ _
      ((sdb.setNonce caller (sdb.getNonce caller + 1)).addAddressToAccessList address).cur ?_]
    · rfl
    rw [(hok _ _ [] false).1 _ ?_]
    · simp [ZVM.createRunState, SDB.snapshot, SDB.transfer, SDB.setNonce, SDB.createAccount,
        SDB.addAddressToAccessList, List.getElem?_append_len]
    · simp [ZVM.createRunState, SDB.snapshot, SDB.transfer, SDB.setNonce, SDB.createAccount,
        SDB.addAddressToAccessList]
  refine ⟨rfl, rfl, hworld, ?_⟩
  rw [show ((zvm.interp (ZVM.createRunState sdb caller value address)
      ⟨caller, address, value, gas, code⟩ [] false).sdb.revertToSnapshot
        ((sdb.setNonce caller (sdb.getNonce caller + 1)).addAddressToAccessList
          address).snapshot.1).cur.world
      = sdb.cur.world.setNonce caller (sdb.getNonce caller + 1) from hworld]
  rw [World.getCode_setNonce_other _ _ _ _ hne]
  exact World.getCode_empty_of_hash _ _ hhash

namespace TxCodec

theorem parseNat_enc (n : Nat) (r : Bytes) : parseNat (encNat n ++ r) = some (n, r) := rfl

theorem parseBytes_enc (b : Bytes) (r : Bytes) :
    parseBytes (encBytes b ++ r) = some (b, r) := by
  simp [encBytes, parseBytes]

theorem parseOptAddr_enc (a : Option Address) (r : Bytes) :
    parseOptAddr (encOptAddr a ++ r) = some (a, r) := by
  cases a <;> simp [encOptAddr, parseOptAddr]

theorem parseTuple_enc (t : Address × List Nat) (r : Bytes) :
    parseTuple (encTuple t ++ r) = some (t, r) := by
  cases t with
  | mk a ks => simp [encTuple, parseTuple, parseBytes_enc]

theorem parseTuples_enc (l : List (Address × List Nat)) (r : Bytes) :
    parseTuples l.length ((l.map encTuple).flatten ++ r) = some (l, r) := by
  induction l generalizing r with
  | nil => rfl
  | cons t ts ih =>
    simp only [List.map_cons, List.flatten_cons, List.length_cons, List.append_assoc]
    rw [parseTuples, parseTuple_enc]
    simp only [ih]

theorem parseAccessList_enc (l : List (Address × List Nat)) (r : Bytes) :
    parseAccessList (encAccessList l ++ r) = some (l, r) := by
  simp only [encAccessList, parseAccessList, List.cons_append, parseNat]
  exact parseTuples_enc l r

end TxCodec

theorem TxCodec.parseBytes_enc_nil (b : Bytes) :
    TxCodec.parseBytes (TxCodec.encBytes b) = some (b, []) := by
  simpa using TxCodec.parseBytes_enc b []

/-- The payload codec round-trips: decoding a canonical encoding yields
the original transaction fields. -/
theorem DynamicFeeTx.decode_encode (tx : DynamicFeeTx) :
    DynamicFeeTx.decode tx.encode = some tx := by
  simp only [DynamicFeeTx.encode, DynamicFeeTx.decode, List.append_assoc,
    TxCodec.parseNat_enc, TxCodec.parseBytes_enc, TxCodec.parseOptAddr_enc,
    TxCodec.parseAccessList_enc, TxCodec.parseBytes_enc_nil]

theorem errInterp_ok : InterpOK errInterp :=
  fun _ _ _ _ => ⟨fun _ _ => rfl, Nat.zero_le _⟩

theorem haltInterp_ok : InterpOK haltInterp :=
  fun _ _ _ _ => ⟨fun _ _ => rfl, Nat.zero_le _⟩

theorem haltInterp_ro : ReadOnlyOK haltInterp := fun _ _ _ => rfl

theorem oneByteInterp_ok : InterpOK oneByteInterp :=
  fun _ _ _ _ => ⟨fun _ _ => rfl, Nat.zero_le _⟩

theorem longInterp_ok : InterpOK longInterp :=
  fun _ _ _ _ => ⟨fun _ _ => rfl, le_refl _⟩

theorem revInterp_ok : InterpOK revInterp :=
  fun _ _ _ _ => ⟨fun _ _ => rfl, le_refl _⟩


/-! ### The claims -/

/-- C1: block processing is deterministic — two runs of the embedded
`Prestate.Apply` and `StateProcessor.Process` over the same block inputs
and the same starting state return identical receipts, identical
accumulated logs, identical total gas used, and commit the same final
state root. Determinism holds by construction of the embedding: the
processing path is a pure function of its inputs (ordered transaction
list, no randomness, no time, no map-iteration order). -/
theorem c1_processing_deterministic (zvm : ZVM) (env env' : BlockEnv) (gl gl' : Nat)
    (msgs msgs' : List Msg) (sdb sdb' : SDB)
    (he : env = env') (hg : gl = gl') (hm : msgs = msgs') (hs : sdb = sdb') :
    (Apply zvm env msgs sdb).receipts = (Apply zvm env' msgs' sdb').receipts ∧
    (Apply zvm env msgs sdb).gasUsed = (Apply zvm env' msgs' sdb').gasUsed ∧
    (Apply zvm env msgs sdb).stateRoot = (Apply zvm env' msgs' sdb').stateRoot ∧
    (Apply zvm env msgs sdb).rejected = (Apply zvm env' msgs' sdb').rejected ∧
    Process zvm gl msgs sdb = Process zvm gl' msgs' sdb' := by
  subst he; subst hg; subst hm; subst hs
  exact ⟨rfl, rfl, rfl, rfl, rfl⟩

/-- C1 witness: the two runs coincide on a concrete block. -/
theorem c1_witness :
    (Apply ⟨0, [], errInterp⟩ ⟨7, 100000, none, []⟩ [⟨1, some 2, 0, 30000, 1, 0, []⟩]
      exSDB).receipts
      = (Apply ⟨0, [], errInterp⟩ ⟨7, 100000, none, []⟩ [⟨1, some 2, 0, 30000, 1, 0, []⟩]
        exSDB).receipts ∧
    (Apply ⟨0, [], errInterp⟩ ⟨7, 100000, none, []⟩ [⟨1, some 2, 0, 30000, 1, 0, []⟩]
      exSDB).gasUsed
      = (Apply ⟨0, [], errInterp⟩ ⟨7, 100000, none, []⟩ [⟨1, some 2, 0, 30000, 1, 0, []⟩]
        exSDB).gasUsed ∧
    (Apply ⟨0, [], errInterp⟩ ⟨7, 100000, none, []⟩ [⟨1, some 2, 0, 30000, 1, 0, []⟩]
      exSDB).stateRoot
      = (Apply ⟨0, [], errInterp⟩ ⟨7, 100000, none, []⟩ [⟨1, some 2, 0, 30000, 1, 0, []⟩]
        exSDB).stateRoot ∧
    (Apply ⟨0, [], errInterp⟩ ⟨7, 100000, none, []⟩ [⟨1, some 2, 0, 30000, 1, 0, []⟩]
      exSDB).rejected
      = (Apply ⟨0, [], errInterp⟩ ⟨7, 100000, none, []⟩ [⟨1, some 2, 0, 30000, 1, 0, []⟩]
        exSDB).rejected ∧
    Process ⟨0, [], errInterp⟩ 100000 [⟨1, some 2, 0, 30000, 1, 0, []⟩] exSDB
      = Process ⟨0, [], errInterp⟩ 100000 [⟨1, some 2, 0, 30000, 1, 0, []⟩] exSDB :=
  c1_processing_deterministic ⟨0, [], errInterp⟩ ⟨7, 100000, none, []⟩ ⟨7, 100000, none, []⟩
    100000 100000 [⟨1, some 2, 0, 30000, 1, 0, []⟩] [⟨1, some 2, 0, 30000, 1, 0, []⟩]
    exSDB exSDB rfl rfl rfl rfl

/-- C2 counterexample: `ZVM.create` returns the non-nil error
`ErrCodeStoreOutOfGas` and yet does NOT revert to its snapshot — the
contract account created after the snapshot persists (the source guards
the revert with `err != ErrCodeStoreOutOfGas`). -/
theorem c2_counterexample :
    (ZVM.create ⟨0, [], oneByteInterp⟩ exSDB 1 [] 100 0 9).err
      = some .errCodeStoreOutOfGas ∧
    (ZVM.create ⟨0, [], oneByteInterp⟩ exSDB 1 [] 100 0 9).err ≠ none ∧
    (ZVM.create ⟨0, [], oneByteInterp⟩ exSDB 1 [] 100 0 9).sdb.cur.world.exist 9 = true ∧
    exSDB.cur.world.exist 9 = false := by decide

/-- C2 (amended): each sub-call operation snapshots at entry and returns
errors as values. Whenever `Call`, `DelegateCall` or `StaticCall` returns
a non-nil error, the live state is reverted exactly to the entry
snapshot. `create`, on a non-nil error other than `ErrCodeStoreOutOfGas`,
either failed before any mutation (depth, balance, nonce-overflow
checks) leaving the state unchanged, or is reverted to its snapshot —
which equals the entry state up to the caller's nonce increment taken
before the snapshot (the address-collision failure also returns with just
that increment in place). On `ErrCodeStoreOutOfGas` the creation's
mutations persist. -/
theorem c2_subcall_snapshot_revert (zvm : ZVM) (hok : InterpOK zvm.interp)
    (sdb : SDB) (caller addr : Address) (input code : Bytes) (gas value : Nat) :
    ((zvm.Call sdb caller addr input gas value).err ≠ none →
      (zvm.Call sdb caller addr input gas value).sdb.cur = sdb.cur) ∧
    ((zvm.DelegateCall sdb caller addr input gas).err ≠ none →
      (zvm.DelegateCall sdb caller addr input gas).sdb.cur = sdb.cur) ∧
    ((zvm.StaticCall sdb caller addr input gas).err ≠ none →
      (zvm.StaticCall sdb caller addr input gas).sdb.cur = sdb.cur) ∧
    ((zvm.create sdb caller code gas value addr).err ≠ none →
      (zvm.create sdb caller code gas value addr).err ≠ some .errCodeStoreOutOfGas →
      (zvm.create sdb caller code gas value addr).sdb.cur.world = sdb.cur.world ∨
      (zvm.create sdb caller code gas value addr).sdb.cur.world
        = sdb.cur.world.setNonce caller (sdb.getNonce caller + 1)) :=
  ⟨ZVM.call_err_cur zvm hok sdb caller addr input gas value,
   ZVM.delegate_err_cur zvm hok sdb caller addr input gas,
   ZVM.static_err_cur zvm hok sdb caller addr input gas,
   ZVM.create_err_world_disj zvm hok sdb caller code gas value addr⟩

/-- C2 witness: a failing call is rolled back to the entry state, and a
failing creation keeps only the caller's nonce increment. -/
theorem c2_witness :
    ((ZVM.Call ⟨0, [], errInterp⟩ exSDB 1 2 [] 5 0).sdb.cur = exSDB.cur) ∧
    ((ZVM.create ⟨0, [], errInterp⟩ exSDB 1 [] 5 0 9).sdb.cur.world = exSDB.cur.world ∨
      (ZVM.create ⟨0, [], errInterp⟩ exSDB 1 [] 5 0 9).sdb.cur.world
        = exSDB.cur.world.setNonce 1 (exSDB.getNonce 1 + 1)) := by
  refine ⟨?_, ?_⟩
  · exact (c2_subcall_snapshot_revert ⟨0, [], errInterp⟩ errInterp_ok exSDB 1 2 [] [] 5 0).1
      (by decide)
  · exact (c2_subcall_snapshot_revert ⟨0, [], errInterp⟩ errInterp_ok exSDB 1 9 [] [] 5 0).2.2.2
      (by decide) (by decide)

/-- C3 counterexample: a contract creation failing with
`ErrCodeStoreOutOfGas` produces a failed execution result whose
post-state differs from the pre-state at the created contract address —
not only at the sender — because the source skips the revert for this
error. -/
theorem c3_counterexample :
    (ApplyMessage ⟨0, [], oneByteInterp⟩ ⟨1, none, 0, 60000, 1, 0, []⟩ 100000 exSDB).result
      = .ok ⟨60000, some .errCodeStoreOutOfGas, some [1]⟩ ∧
    exSDB.cur.world.find 3 = none ∧
    (ApplyMessage ⟨0, [], oneByteInterp⟩ ⟨1, none, 0, 60000, 1, 0, []⟩ 100000
      exSDB).sdb.cur.world.find 3 ≠ none := by decide

/-- C3 witness: a reverted message call leaves the sender with the nonce
increment and exactly the fee for the 21000 gas used; the recipient is
untouched. -/
theorem c3_witness :
    (ApplyMessage ⟨0, [], revInterp⟩ ⟨1, some 2, 0, 30000, 1, 5, []⟩ 100000
      exSDB).sdb.cur.world.find 2 = exSDB.cur.world.find 2 ∧
    (ApplyMessage ⟨0, [], revInterp⟩ ⟨1, some 2, 0, 30000, 1, 5, []⟩ 100000
      exSDB).sdb.cur.world.find 1
      = some { exSDB.cur.world.getAcct 1 with
               nonce := ((exSDB.cur.world.getAcct 1).nonce + 1)
               balance := ((exSDB.cur.world.getAcct 1).balance - 21000 * 1) } := by
  have h := c3_revert_nonce_fee ⟨0, [], revInterp⟩ ⟨1, some 2, 0, 30000, 1, 5, []⟩ 100000
    exSDB revInterp_ok (by decide) (by decide)
    ⟨21000, some .errExecutionReverted, some []⟩ (by decide) (by decide) (by decide)
  exact ⟨h.1 2 (by decide), h.2⟩

/-- C4: the block gas pool, seeded with the block gas limit, decreases by
exactly the gas used per included transaction and can never underflow
(its `Nat` value always equals limit minus gas-used); a transaction whose
gas limit exceeds the remaining pool is excluded without being executed —
the `Prestate.Apply` loop step restores the pool to its pre-transaction
value, leaves the state untouched and records the transaction as
rejected; and the receipts' per-transaction gas never sums to more than
the block gas limit. -/
theorem c4_block_gas_pool (zvm : ZVM) (env : BlockEnv) (msgs : List Msg) (sdb : SDB)
    (hok : InterpOK zvm.interp) :
    (Apply zvm env msgs sdb).gasUsed ≤ env.gasLimit ∧
    ((Apply zvm env msgs sdb).receipts.map Receipt.gasUsed).sum
      = (Apply zvm env msgs sdb).gasUsed ∧
    (∀ (acc : ApplyAcc) (idx : Nat) (msg : Msg), acc.gaspool < msg.gasLimit →
      applyStep zvm acc idx msg = { acc with rejected := acc.rejected ++ [idx] }) := by
  have hinv := applyLoop_inv zvm hok env.gasLimit msgs.enum
    ⟨sdb, env.gasLimit, 0, [], [], 0⟩ ⟨rfl, rfl⟩
  refine ⟨?_, ?_, ?_⟩
  · show (msgs.enum.foldl (fun (a : ApplyAcc) p => applyStep zvm a p.1 p.2)
      ⟨sdb, env.gasLimit, 0, [], [], 0⟩).gasUsed ≤ env.gasLimit
    have h1 := hinv.1
    omega
  · exact hinv.2
  · intro acc idx msg h
    unfold applyStep
    dsimp only
    obtain ⟨e, he⟩ := applyMessage_pool_exceeded zvm msg acc.gaspool acc.sdb.snapshot.2 h
    simp only [he]
    rw [applyMessage_err_revert zvm msg acc.gaspool acc.sdb e he]

/-- C4 witness: on a block with one affordable transaction the gas used
stays within the limit, and a transaction above the remaining pool is
rejected with the pool and state restored. -/
theorem c4_witness :
    (Apply ⟨0, [], errInterp⟩ ⟨7, 100000, none, []⟩ [⟨1, some 2, 0, 30000, 1, 0, []⟩]
      exSDB).gasUsed ≤ 100000 ∧
    applyStep ⟨0, [], errInterp⟩ ⟨exSDB, 100, 0, [], [], 0⟩ 0 ⟨1, some 2, 0, 30000, 1, 0, []⟩
      = { (⟨exSDB, 100, 0, [], [], 0⟩ : ApplyAcc) with rejected := [] ++ [0] } := by
  have h := c4_block_gas_pool ⟨0, [], errInterp⟩ ⟨7, 100000, none, []⟩
    [⟨1, some 2, 0, 30000, 1, 0, []⟩] exSDB errInterp_ok
  exact ⟨h.1, h.2.2 ⟨exSDB, 100, 0, [], [], 0⟩ 0 ⟨1, some 2, 0, 30000, 1, 0, []⟩ (by decide)⟩

/-- C5: call depth is bounded by the fixed constant `CallCreateDepth`
(`params.CallCreateDepth`): at any depth exceeding the limit,
`ZVM.Call`, `ZVM.DelegateCall`, `ZVM.StaticCall` and `ZVM.create` all
fail immediately with `ErrDepth`, returning the supplied gas untouched
and leaving the state unchanged; the error is returned as a value, so
the outer caller's execution continues. -/
theorem c5_call_depth_bounded (zvm : ZVM) (sdb : SDB) (caller addr : Address)
    (input code : Bytes) (gas value : Nat)
    (h : zvm.depth > CallCreateDepth) :
    zvm.Call sdb caller addr input gas value = ⟨sdb, none, gas, some .errDepth⟩ ∧
    zvm.DelegateCall sdb caller addr input gas = ⟨sdb, none, gas, some .errDepth⟩ ∧
    zvm.StaticCall sdb caller addr input gas = ⟨sdb, none, gas, some .errDepth⟩ ∧
    zvm.create sdb caller code gas value addr = ⟨sdb, none, 0, gas, some .errDepth⟩ := by
  refine ⟨?_, ?_, ?_, ?_⟩ <;>
    simp [ZVM.Call, ZVM.DelegateCall, ZVM.StaticCall, ZVM.create, h]

/-- C5 witness: at depth 1025 every sub-call operation fails with
`ErrDepth` and full gas returned. -/
theorem c5_witness :
    ZVM.Call ⟨1025, [], errInterp⟩ exSDB 1 2 [] 77 0 = ⟨exSDB, none, 77, some .errDepth⟩ ∧
    ZVM.DelegateCall ⟨1025, [], errInterp⟩ exSDB 1 2 [] 77
      = ⟨exSDB, none, 77, some .errDepth⟩ ∧
    ZVM.StaticCall ⟨1025, [], errInterp⟩ exSDB 1 2 [] 77
      = ⟨exSDB, none, 77, some .errDepth⟩ ∧
    ZVM.create ⟨1025, [], errInterp⟩ exSDB 1 [] 77 0 2
      = ⟨exSDB, none, 0, 77, some .errDepth⟩ :=
  c5_call_depth_bounded ⟨1025, [], errInterp⟩ exSDB 1 2 [] [] 77 0 (by decide)

/-- C6: during `ZVM.StaticCall` the interpreter runs in read-only mode
(the flag passed to `Run` is `true`), and — for a read-only-safe
interpreter, as the spec requires of the missing interpreter — the world
state after `StaticCall` returns equals the world state before it was
entered, on the success path and the failure (revert) path alike. -/
theorem c6_staticcall_state_preserved (zvm : ZVM) (sdb : SDB) (caller addr : Address)
    (input : Bytes) (gas : Nat)
    (hok : InterpOK zvm.interp) (hro : ReadOnlyOK zvm.interp) :
    (zvm.StaticCall sdb caller addr input gas).sdb.cur.world = sdb.cur.world :=
  ZVM.static_world zvm hok hro sdb caller addr input gas

/-- C6 witness: a concrete static call leaves the world unchanged. -/
theorem c6_witness :
    (ZVM.StaticCall ⟨0, [], haltInterp⟩ exSDB 1 2 [] 5).sdb.cur.world = exSDB.cur.world :=
  c6_staticcall_state_preserved ⟨0, [], haltInterp⟩ exSDB 1 2 [] 5
    haltInterp_ok haltInterp_ro

/-- C7 witness: an init frame returning `MaxCodeSize + 1` bytes makes the
concrete creation fail with `ErrMaxCodeSizeExceeded`, zero gas left and
no code at the target address. -/
theorem c7_witness :
    (ZVM.create ⟨0, [], longInterp⟩ exSDB 1 [] 100 0 9).err
      = some .errMaxCodeSizeExceeded ∧
    (ZVM.create ⟨0, [], longInterp⟩ exSDB 1 [] 100 0 9).gasLeft = 0 ∧
    (ZVM.create ⟨0, [], longInterp⟩ exSDB 1 [] 100 0 9).sdb.cur.world.getCode 9 = [] := by
  have h := c7_maxcode_reverts ⟨0, [], longInterp⟩ exSDB 1 [] 100 0 9 longInterp_ok
    (by decide) (by decide) (by decide) (by decide) (by decide) (Or.inl (by decide))
    rfl (by simp [longInterp])
  exact ⟨h.1, h.2.1, h.2.2.2⟩

/-- C8 counterexample: not every transaction can be marshalled — the
constructible legacy payload's `encode` is a `panic` in the source
(modelled as `none`), so `MarshalBinary` yields no output, there is no
leading type byte, and the round trip cannot succeed for it. -/
theorem c8_counterexample :
    marshalBinary (TxData.legacy ⟨0, 0, 0, none, 0, []⟩) = none ∧
    (TxData.legacy ⟨0, 0, 0, none, 0, []⟩).txType = LegacyTxType := ⟨rfl, rfl⟩

/-- The canonical payload encoding is never empty (its first field is the
chain id). -/
theorem DynamicFeeTx.encode_length_pos (tx : DynamicFeeTx) : 0 < tx.encode.length := by
  show 0 < (TxCodec.encNat tx.chainID ++ _).length
  simp [TxCodec.encNat]

/-- C8 (amended): for every dynamic-fee transaction — the one type the
typed codec supports — `MarshalBinary` succeeds, the first byte of its
output equals `tx.Type()` (the leading type discriminator), decoding
dispatches on that byte, and `UnmarshalBinary` of the output succeeds and
reproduces a transaction with the same consensus fields and the same
hash. -/
theorem c8_typed_roundtrip (tx : DynamicFeeTx) :
    ∃ out tx', marshalBinary (.dynamicFee tx) = some out ∧
      out.head? = some (TxData.dynamicFee tx).txType ∧
      unmarshalBinary out = .ok tx' ∧
      tx' = .dynamicFee tx ∧ txHash tx' = txHash (.dynamicFee tx) := by
  refine ⟨DynamicFeeTxType :: tx.encode, .dynamicFee tx, rfl, rfl, ?_, rfl, rfl⟩
  unfold unmarshalBinary decodeTyped
  rw [if_neg ?_]
  · dsimp only
    rw [if_pos rfl, DynamicFeeTx.decode_encode]
  · have := tx.encode_length_pos
    simp only [List.length_cons]
    omega

/-- C9: transaction decoding is total and supports exactly one type —
for every input byte string, `decodeTyped` (and `UnmarshalBinary`, which
defers to it) returns `errShortTypedTx` when the input length is at most
one, returns `ErrTxTypeNotSupported` whenever the first byte differs from
`DynamicFeeTxType` (0x02), and every successful decode is a dynamic-fee
payload — the panicking `LegacyTx.decode` is unreachable through this
interface, and the decoder is a total function (it never panics). -/
theorem c9_decoding_total (b : Bytes) :
    (b.length ≤ 1 → decodeTyped b = .error .errShortTypedTx) ∧
    (1 < b.length → b.head? ≠ some DynamicFeeTxType →
      decodeTyped b = .error .errTxTypeNotSupported) ∧
    (∀ tx, decodeTyped b = .ok tx → ∃ df, tx = TxData.dynamicFee df) ∧
    unmarshalBinary b = decodeTyped b := by
  refine ⟨?_, ?_, ?_, rfl⟩
  · intro h
    unfold decodeTyped
    rw [if_pos h]
  · intro h1 h2
    unfold decodeTyped
    rw [if_neg (by omega)]
    cases b with
    | nil => simp at h1
    | cons f r =>
      simp only [List.head?] at h2
      dsimp only
      rw [if_neg (by intro hf; exact h2 (by rw [hf]))]
  · intro tx htx
    unfold decodeTyped at htx
    split at htx
    · simp at htx
    · split at htx
      · split at htx
        · split at htx
          · injection htx with h
            exact ⟨_, h.symm⟩
          · simp at htx
        · simp at htx
      · simp at htx

/-- C9 witness: a one-byte input is too short, and a two-byte input with
an unsupported type byte is rejected as such. -/
theorem c9_witness :
    decodeTyped [5] = .error .errShortTypedTx ∧
    decodeTyped [5, 0] = .error .errTxTypeNotSupported ∧
    (∀ tx, decodeTyped [2, 9] = .ok tx → ∃ df, tx = TxData.dynamicFee df) := by
  refine ⟨?_, ?_, ?_⟩
  · exact (c9_decoding_total [5]).1 (by decide)
  · exact (c9_decoding_total [5, 0]).2.1 (by decide) (by decide)
  · exact (c9_decoding_total [2, 9]).2.2.1

/-- C10: a zero-value `ZVM.Call` to an address that does not exist in the
state and is not a precompile succeeds trivially — it returns a nil
result and a nil error, the leftover gas equals the full gas supplied, no
account is created at the address, and the live state is unchanged. -/
theorem c10_call_nonexistent_noop (zvm : ZVM) (sdb : SDB) (caller addr : Address)
    (input : Bytes) (gas : Nat)
    (hdepth : ¬ zvm.depth > CallCreateDepth)
    (hpre : zvm.precompile addr = none)
    (hex : sdb.exist addr = false) :
    (zvm.Call sdb caller addr input gas 0).ret = none ∧
    (zvm.Call sdb caller addr input gas 0).gasLeft = gas ∧
    (zvm.Call sdb caller addr input gas 0).err = none ∧
    (zvm.Call sdb caller addr input gas 0).sdb.cur = sdb.cur ∧
    (zvm.Call sdb caller addr input gas 0).sdb.exist addr = false := by
  have hcall : zvm.Call sdb caller addr input gas 0
      = ⟨{ sdb with snaps := sdb.snaps ++ [sdb.cur] }, none, gas, none⟩ := by
    unfold ZVM.Call
    rw [if_neg hdepth, if_neg (by simp)]
    dsimp only
    rw [if_pos ?_]
    · rfl
    refine ⟨?_, ?_, rfl⟩
    · show ¬ sdb.cur.world.exist addr = true
      simp only [SDB.exist] at hex
      simp [hex]
    · simp [hpre]
  rw [hcall]
  exact ⟨rfl, rfl, rfl, rfl, hex⟩

/-- C10 witness: calling the absent address 5 with zero value returns all
gas, no error and no state change. -/
theorem c10_witness :
    (ZVM.Call ⟨0, [], errInterp⟩ exSDB 1 5 [] 42 0).ret = none ∧
    (ZVM.Call ⟨0, [], errInterp⟩ exSDB 1 5 [] 42 0).gasLeft = 42 ∧
    (ZVM.Call ⟨0, [], errInterp⟩ exSDB 1 5 [] 42 0).err = none ∧
    (ZVM.Call ⟨0, [], errInterp⟩ exSDB 1 5 [] 42 0).sdb.cur = exSDB.cur ∧
    (ZVM.Call ⟨0, [], errInterp⟩ exSDB 1 5 [] 42 0).sdb.exist 5 = false :=
  c10_call_nonexistent_noop ⟨0, [], errInterp⟩ exSDB 1 5 [] 42 (by decide) rfl (by decide)
